import Mathlib

/-!
Verification of the v3io-go HTTP data-plane client against its specification.

The Go sources are shallowly embedded: Go strings/byte slices become
`List Nat` (byte values), Go `int`/`int64` become `Int` with explicit
64-bit range side conditions, fallible Go functions return `Option`/`Except`,
and the stateful request/worker machinery becomes explicit functions over
oracles describing the HTTP transport's behaviour.  Go standard-library
helpers that the client calls (strconv, strings, path, encoding/base64,
time) are reimplemented here following their documented semantics; the
client's own code is translated line by line.
-/

/-- Go strings are byte slices; we model them as lists of byte values.
For the ASCII literals used by this client, the UTF-8 bytes are exactly the
character code points. -/
def bytes (s : String) : List Nat := s.data.map Char.toNat

/-! ## Byte-string helpers (Go `strings` package, documented semantics) -/

/-- `strings.HasPrefix`. -/
def hasPrefixB : List Nat → List Nat → Bool
  | _, [] => true
  | [], _ :: _ => false
  | a :: s, b :: p => a = b && hasPrefixB s p

/-- `strings.HasSuffix`. -/
def hasSuffixB (s suffix : List Nat) : Bool :=
  hasPrefixB s.reverse suffix.reverse

/-- Index of the first occurrence of `sep` in `s` (`strings.Index` for a
nonempty separator). -/
def findSub : List Nat → List Nat → Option Nat
  | [], _ => none
  | a :: rest, sep =>
    if hasPrefixB (a :: rest) sep then some 0
    else (findSub rest sep).map (· + 1)

/-- Fuel-bounded worker for `splitSub`; the fuel `s.length + 1` always
suffices for a nonempty separator. -/
def splitSubFuel : Nat → List Nat → List Nat → List (List Nat)
  | 0, s, _ => [s]
  | fuel + 1, s, sep =>
    match findSub s sep with
    | none => [s]
    | some i => s.take i :: splitSubFuel fuel (s.drop (i + sep.length)) sep

/-- `strings.Split(s, sep)` for a nonempty separator: cut at each
non-overlapping leftmost occurrence. -/
def splitSub (sep s : List Nat) : List (List Nat) :=
  splitSubFuel (s.length + 1) s sep

/-- `strings.Split(s, sep)` when `sep` is a single byte; used for the
single-character separators `":"` and `"/"`. -/
def splitByte (sep : Nat) : List Nat → List (List Nat)
  | [] => [[]]
  | b :: rest =>
    match splitByte sep rest with
    | [] => [[]]
    | h :: t => if b = sep then [] :: h :: t else (b :: h) :: t

/-- ASCII white space, as trimmed by `strings.TrimSpace` (the headers this
client trims contain only ASCII). -/
def isSpaceByte (b : Nat) : Bool :=
  b = 32 || b = 9 || b = 10 || b = 11 || b = 12 || b = 13

/-- `strings.TrimSpace` on ASCII byte strings. -/
def trimSpaceB (s : List Nat) : List Nat :=
  ((s.dropWhile isSpaceByte).reverse.dropWhile isSpaceByte).reverse

/-! ## Decimal integers (`strconv.Itoa` / `strconv.Atoi` / `ParseInt`) -/

/-- A decimal digit value rendered as its ASCII byte. -/
def digitByte (d : Nat) : Nat := 48 + d

/-- Decimal rendering of a natural number (`strconv.FormatUint` base 10). -/
def natToBytes (n : Nat) : List Nat :=
  if n = 0 then [48] else ((Nat.digits 10 n).map digitByte).reverse

/-- `strconv.Itoa` / `strconv.FormatInt base 10` for a signed value. -/
def itoa (i : Int) : List Nat :=
  if i < 0 then 45 :: natToBytes i.natAbs else natToBytes i.toNat

/-- Read a byte as a decimal digit. -/
def byteDigit (b : Nat) : Option Nat :=
  if 48 ≤ b ∧ b ≤ 57 then some (b - 48) else none

/-- Parse an unsigned run of decimal digits (most significant first);
errors on an empty string or on any non-digit byte. -/
def parseNat : List Nat → Option Nat
  | [] => none
  | [b] => byteDigit b
  | b :: rest =>
    match byteDigit b, parseNat rest with
    | some d, some n => some (d * 10 ^ rest.length + n)
    | _, _ => none

/-- `strconv.Atoi` (= `ParseInt(s, 10, 64)` on a 64-bit platform): optional
sign, decimal digits, signed 64-bit range check. -/
def atoi (s : List Nat) : Option Int :=
  match s with
  | [] => none
  | b :: rest =>
    if b = 43 then
      (parseNat rest).bind fun n =>
        if (n : Int) ≤ 2 ^ 63 - 1 then some (n : Int) else none
    else if b = 45 then
      (parseNat rest).bind fun n =>
        if (n : Int) ≤ 2 ^ 63 then some (-(n : Int)) else none
    else
      (parseNat s).bind fun n =>
        if (n : Int) ≤ 2 ^ 63 - 1 then some (n : Int) else none

theorem parseNat_digits (l : List Nat) (h : ∀ d ∈ l, d < 10) (hne : l ≠ []) :
    parseNat (l.map digitByte) = some (Nat.ofDigits 10 l.reverse) := by
  induction l with
  | nil => exact absurd rfl hne
  | cons d rest ih =>
    have hd : d < 10 := h d (List.mem_cons_self d rest)
    have hbd : byteDigit (digitByte d) = some d := by
      simp only [byteDigit, digitByte]
      rw [if_pos (by omega)]
      simp
    cases rest with
    | nil =>
      simp only [List.map, parseNat, hbd, List.reverse_cons, List.reverse_nil,
        List.nil_append, Nat.ofDigits]
      norm_num [Nat.ofDigits]
    | cons e rest2 =>
      have hrest : ∀ x ∈ e :: rest2, x < 10 := fun x hx => h x (List.mem_cons_of_mem d hx)
      have ihr := ih hrest (by simp)
      simp only [List.map] at ihr ⊢
      simp only [parseNat, hbd, ihr]
      congr 1
      rw [show ((d :: e :: rest2).reverse : List Nat) = rest2.reverse ++ [e, d] by simp,
        Nat.ofDigits_append,
        show ((e :: rest2).reverse : List Nat) = rest2.reverse ++ [e] by simp,
        Nat.ofDigits_append]
      simp only [Nat.ofDigits, List.length_reverse, List.length_cons, List.length_map,
        Nat.cast_id]
      ring

theorem parseNat_natToBytes (n : Nat) : parseNat (natToBytes n) = some n := by
  by_cases hz : n = 0
  · subst hz; decide
  · have hne : Nat.digits 10 n ≠ [] := Nat.digits_ne_nil_iff_ne_zero.mpr hz
    have hlt : ∀ d ∈ Nat.digits 10 n, d < 10 :=
      fun d hd => Nat.digits_lt_base (by norm_num) hd
    have hlt2 : ∀ d ∈ (Nat.digits 10 n).reverse, d < 10 := by
      intro d hd; exact hlt d (List.mem_reverse.mp hd)
    have hne2 : (Nat.digits 10 n).reverse ≠ [] := by
      simpa using hne
    have := parseNat_digits (Nat.digits 10 n).reverse hlt2 hne2
    rw [natToBytes, if_neg hz, ← List.map_reverse, this, List.reverse_reverse,
      Nat.ofDigits_digits]

theorem natToBytes_mem_range (n : Nat) : ∀ b ∈ natToBytes n, 48 ≤ b ∧ b ≤ 57 := by
  intro b hb
  by_cases hz : n = 0
  · subst hz; simp [natToBytes] at hb; omega
  · rw [natToBytes, if_neg hz] at hb
    rw [List.mem_reverse, List.mem_map] at hb
    obtain ⟨d, hd, rfl⟩ := hb
    have := Nat.digits_lt_base (by norm_num) hd
    simp only [digitByte]
    omega

theorem atoi_itoa (i : Int) (hlo : -(2 ^ 63) ≤ i) (hhi : i < 2 ^ 63) :
    atoi (itoa i) = some i := by
  by_cases hneg : i < 0
  · rw [itoa, if_pos hneg]
    have hp := parseNat_natToBytes i.natAbs
    simp only [atoi, hp, Option.bind_some]
    norm_num
    refine ⟨by omega, ?_⟩
    rw [abs_of_neg hneg]
    ring
  · rw [itoa, if_neg hneg]
    have hmem := natToBytes_mem_range i.toNat
    rcases hcase : natToBytes i.toNat with _ | ⟨b, rest⟩
    · have h0 := parseNat_natToBytes i.toNat
      rw [hcase, show parseNat [] = none from rfl] at h0
      cases h0
    · have hb := hmem b (by rw [hcase]; exact List.mem_cons_self b rest)
      simp only [atoi]
      rw [if_neg (by omega), if_neg (by omega), ← hcase, parseNat_natToBytes]
      simp only [Option.some_bind]
      rw [if_pos (by omega)]
      congr 1
      omega

theorem itoa_no_colon (i : Int) : ∀ b ∈ itoa i, b ≠ 58 := by
  intro b hb
  by_cases hneg : i < 0
  · rw [itoa, if_pos hneg] at hb
    rcases List.mem_cons.mp hb with h | h
    · omega
    · have := natToBytes_mem_range i.natAbs b h; omega
  · rw [itoa, if_neg hneg] at hb
    have := natToBytes_mem_range i.toNat b hb; omega

/-! ## Base64 (`encoding/base64` StdEncoding, documented semantics) -/

/-- The standard base64 alphabet: sextet value to ASCII byte. -/
def b64char (i : Nat) : Nat :=
  if i < 26 then 65 + i
  else if i < 52 then 97 + (i - 26)
  else if i < 62 then 48 + (i - 52)
  else if i = 62 then 43 else 47

/-- Inverse of the base64 alphabet. -/
def b64dec (b : Nat) : Option Nat :=
  if 65 ≤ b ∧ b ≤ 90 then some (b - 65)
  else if 97 ≤ b ∧ b ≤ 122 then some (b - 97 + 26)
  else if 48 ≤ b ∧ b ≤ 57 then some (b - 48 + 52)
  else if b = 43 then some 62
  else if b = 47 then some 63
  else none

theorem b64dec_b64char : ∀ i < 64, b64dec (b64char i) = some i := by decide

theorem b64char_ne_pad : ∀ i < 64, b64char i ≠ 61 := by decide

/-- `base64.StdEncoding.EncodeToString`: 3 input bytes become 4 alphabet
bytes; a 1- or 2-byte tail is padded with `'='` (61). -/
def encodeB64 : List Nat → List Nat
  | [] => []
  | [a] => [b64char (a / 4), b64char (a % 4 * 16), 61, 61]
  | [a, b] => [b64char (a / 4), b64char (a % 4 * 16 + b / 16), b64char (b % 16 * 4), 61]
  | a :: b :: c :: rest =>
    b64char (a / 4) :: b64char (a % 4 * 16 + b / 16) ::
      b64char (b % 16 * 4 + c / 64) :: b64char (c % 64) :: encodeB64 rest

/-- `base64.StdEncoding.DecodeString`: input must be 4-byte groups, padding
only in the final group. -/
def decodeB64 : List Nat → Option (List Nat)
  | [] => some []
  | c0 :: c1 :: c2 :: c3 :: rest =>
    (b64dec c0).bind fun s0 =>
      (b64dec c1).bind fun s1 =>
        if c3 = 61 then
          if rest = [] then
            if c2 = 61 then some [s0 * 4 + s1 / 16]
            else
              (b64dec c2).bind fun s2 =>
                some [s0 * 4 + s1 / 16, s1 % 16 * 16 + s2 / 4]
          else none
        else
          (b64dec c2).bind fun s2 =>
            (b64dec c3).bind fun s3 =>
              (decodeB64 rest).map fun tail =>
                (s0 * 4 + s1 / 16) :: (s1 % 16 * 16 + s2 / 4) :: (s2 % 4 * 64 + s3) :: tail
  | _ => none

theorem decodeB64_encodeB64 :
    ∀ l : List Nat, (∀ x ∈ l, x < 256) → decodeB64 (encodeB64 l) = some l
  | [], _ => rfl
  | [a], h => by
    have ha : a < 256 := h a (by simp)
    simp only [encodeB64, decodeB64]
    rw [b64dec_b64char (a / 4) (by omega), b64dec_b64char (a % 4 * 16) (by omega)]
    simp only [Option.some_bind]
    norm_num
    omega
  | [a, b], h => by
    have ha : a < 256 := h a (by simp)
    have hb : b < 256 := h b (by simp)
    simp only [encodeB64, decodeB64]
    rw [b64dec_b64char (a / 4) (by omega), b64dec_b64char (a % 4 * 16 + b / 16) (by omega)]
    simp only [Option.some_bind]
    norm_num
    rw [if_neg (b64char_ne_pad (b % 16 * 4) (by omega)),
      b64dec_b64char (b % 16 * 4) (by omega)]
    simp only [Option.some_bind, Option.some.injEq, List.cons.injEq, and_true]
    constructor
    · omega
    · omega
  | a :: b :: c :: rest, h => by
    have ha : a < 256 := h a (by simp)
    have hb : b < 256 := h b (by simp)
    have hc : c < 256 := h c (by simp)
    have hrest : ∀ x ∈ rest, x < 256 := fun x hx => h x (by simp [hx])
    have ih := decodeB64_encodeB64 rest hrest
    simp only [encodeB64, decodeB64]
    rw [b64dec_b64char (a / 4) (by omega), b64dec_b64char (a % 4 * 16 + b / 16) (by omega)]
    simp only [Option.some_bind]
    rw [if_neg (b64char_ne_pad (c % 64) (by omega)),
      b64dec_b64char (b % 16 * 4 + c / 64) (by omega), b64dec_b64char (c % 64) (by omega)]
    simp only [Option.some_bind, ih, Option.map_some, Option.map_some', Option.some.injEq,
      List.cons.injEq, and_true]
    omega

/-! ## splitByte lemmas -/

theorem splitByte_ne_nil (sep : Nat) (l : List Nat) : splitByte sep l ≠ [] := by
  cases l with
  | nil => simp [splitByte]
  | cons b rest =>
    simp only [splitByte]
    rcases h : splitByte sep rest with _ | ⟨x, t⟩
    · simp
    · by_cases hb : b = sep <;> simp [hb]

theorem splitByte_no_sep (sep : Nat) (l : List Nat) (h : sep ∉ l) :
    splitByte sep l = [l] := by
  induction l with
  | nil => rfl
  | cons b rest ih =>
    have hb : b ≠ sep := fun he => h (he ▸ List.mem_cons_self b rest)
    have hr : sep ∉ rest := fun hm => h (List.mem_cons_of_mem b hm)
    simp only [splitByte, ih hr]
    rw [if_neg hb]

theorem splitByte_append_sep (sep : Nat) (a rest : List Nat) (h : sep ∉ a) :
    splitByte sep (a ++ sep :: rest) = a :: splitByte sep rest := by
  induction a with
  | nil =>
    rcases hs : splitByte sep rest with _ | ⟨x, t⟩
    · exact absurd hs (splitByte_ne_nil sep rest)
    · have step : splitByte sep (([] : List Nat) ++ sep :: rest) =
          match splitByte sep rest with
          | [] => [[]]
          | h2 :: t2 => if sep = sep then [] :: h2 :: t2 else (sep :: h2) :: t2 := rfl
      rw [step, hs]
      simp
  | cons b a2 ih =>
    have hb : b ≠ sep := fun he => h (he ▸ List.mem_cons_self b a2)
    have ha2 : sep ∉ a2 := fun hm => h (List.mem_cons_of_mem b hm)
    have step : splitByte sep ((b :: a2) ++ sep :: rest) =
        match splitByte sep (a2 ++ sep :: rest) with
        | [] => [[]]
        | h2 :: t2 => if b = sep then [] :: h2 :: t2 else (b :: h2) :: t2 := rfl
    rw [step, ih ha2]
    simp [hb]

/-! ## Go `time` package: `time.Unix` normalisation

`time.Unix(sec, nsec)` accepts any nanosecond count and normalises it into
`[0, 1e9)`, borrowing from / carrying into the seconds (floor semantics).
The pair below is the `(Unix(), Nanosecond())` view of the resulting time. -/

def timeUnixPair (sec nsec : Int) : Int × Int :=
  (sec + nsec / 1000000000, nsec % 1000000000)

theorem timeUnixPair_of_range (sec nsec : Int) (h0 : 0 ≤ nsec) (h1 : nsec < 1000000000) :
    timeUnixPair sec nsec = (sec, nsec) := by
  simp only [timeUnixPair]
  rw [Int.ediv_eq_zero_of_lt h0 h1, Int.emod_eq_of_lt h0 h1]
  simp

/-! ## Association lists standing for Go maps -/

/-- Lookup in an association list (a Go map read `m[k]`). -/
def lookupB {α : Type} (k : List Nat) : List (List Nat × α) → Option α
  | [] => none
  | (k2, v) :: rest => if k2 = k then some v else lookupB k rest

/-- Insert-or-replace (a Go map write `m[k] = v`). -/
def mapSet {α : Type} (k : List Nat) (v : α) : List (List Nat × α) → List (List Nat × α)
  | [] => [(k, v)]
  | (k2, v2) :: rest => if k2 = k then (k, v) :: rest else (k2, v2) :: mapSet k v rest

theorem lookupB_mapSet {α : Type} (k : List Nat) (v : α) (l : List (List Nat × α)) :
    lookupB k (mapSet k v l) = some v := by
  induction l with
  | nil => simp [mapSet, lookupB]
  | cons p rest ih =>
    obtain ⟨k2, v2⟩ := p
    simp only [mapSet]
    by_cases h : k2 = k
    · rw [if_pos h]; simp [lookupB]
    · rw [if_neg h]; simp only [lookupB, ih]; rw [if_neg h]

/-! ## The typed-attribute codec (`encodeTypedAttributes` / `decodeTypedAttributes`)

`strconv.FormatFloat(v, 'E', -1, 64)` / `strconv.ParseFloat(s, 64)` operate on
IEEE-754 binary64 values, which have no shallow embedding here.  They are the
only float operations the codec performs, so the float kind is embedded
through a model type carrying the two documented guarantees actually used:
the shortest scientific rendering always re-parses to the same value
(strconv's round-trip guarantee), and it never parses as a decimal integer
(an `'E'` exponent marker is always present, so `strconv.Atoi` fails). -/

structure FloatModel where
  F : Type
  format : F → List Nat
  parse : List Nat → Option F
  format_not_int : ∀ f, atoi (format f) = none
  parse_format : ∀ f, parse (format f) = some f

/-- A native attribute value of one of the six supported kinds
(Go `int`/`int64`, `float64`, `string`, `[]byte`, `bool`, `time.Time`).
A `time.Time` is represented by its `(Unix(), Nanosecond())` pair. -/
inductive AttrValue (M : FloatModel) where
  | int (i : Int)
  | flt (f : M.F)
  | str (s : List Nat)
  | blob (b : List Nat)
  | boolean (b : Bool)
  | ts (sec nsec : Int)

/-- A JSON value inside a typed-attribute envelope, as seen by
`encoding/json` unmarshalling into `interface{}`: the codec only ever
stores / type-asserts strings and bools; `other` stands for any
differently-typed JSON value (the type assertion on it fails). -/
inductive EncVal where
  | vstr (s : List Nat)
  | vbool (b : Bool)
  | other

/-- Side conditions under which a native Go value of the given kind exists:
`int`/`int64` and `time.Unix()` are 64-bit signed, `time.Nanosecond()` is in
`[0, 1e9)`, and blob bytes are bytes. -/
def validAttr {M : FloatModel} : AttrValue M → Bool
  | .int i => decide (-(2 ^ 63) ≤ i) && decide (i < 2 ^ 63)
  | .ts sec nsec =>
    decide (-(2 ^ 63) ≤ sec) && decide (sec < 2 ^ 63) &&
      decide (0 ≤ nsec) && decide (nsec < 1000000000)
  | .blob b => b.all (fun x => decide (x < 256))
  | _ => true

/-- One attribute of `encodeTypedAttributes`: the `switch value.(type)`
producing the single-key `{kind: rendering}` envelope.  (`int`, `int64` and
`uint64` all land in the decimal `"N"` case; `AttrValue.int` covers the
signed 64-bit kind named by the spec.) -/
def encodeTypedAttr {M : FloatModel} : AttrValue M → List (List Nat × EncVal)
  | .int i => [(bytes ("N"), .vstr (itoa i))]
  | .flt f => [(bytes ("N"), .vstr (M.format f))]
  | .str s => [(bytes ("S"), .vstr s)]
  | .blob b => [(bytes ("B"), .vstr (encodeB64 b))]
  | .boolean b => [(bytes ("BOOL"), .vbool b)]
  | .ts sec nsec => [(bytes ("TS"), .vstr (itoa sec ++ 58 :: itoa nsec))]

/-- `encodeTypedAttributes`: `{"age": 30} -> {"age": {"N": "30"}}`, applied
attribute by attribute. -/
def encodeTypedAttributes {M : FloatModel} (attrs : List (List Nat × AttrValue M)) :
    List (List Nat × List (List Nat × EncVal)) :=
  attrs.map fun p => (p.1, encodeTypedAttr p.2)

/-- Decoding of one typed envelope, following the `if/else-if` chain of
`decodeTypedAttributes`: try `"N"` (int, then float), `"S"`, `"B"`,
`"BOOL"`, `"TS"`; a mistyped value is an error; an envelope with none of
the five keys is silently skipped (`none`). -/
def decodeTypedAttr (M : FloatModel) (tv : List (List Nat × EncVal)) :
    Except Unit (Option (AttrValue M)) :=
  match lookupB (bytes ("N")) tv with
  | some (.vstr s) =>
    match atoi s with
    | some i => .ok (some (.int i))
    | none =>
      match M.parse s with
      | some f => .ok (some (.flt f))
      | none => .error ()
  | some _ => .error ()
  | none =>
  match lookupB (bytes ("S")) tv with
  | some (.vstr s) => .ok (some (.str s))
  | some _ => .error ()
  | none =>
  match lookupB (bytes ("B")) tv with
  | some (.vstr s) =>
    match decodeB64 s with
    | some b => .ok (some (.blob b))
    | none => .error ()
  | some _ => .error ()
  | none =>
  match lookupB (bytes ("BOOL")) tv with
  | some (.vbool b) => .ok (some (.boolean b))
  | some _ => .error ()
  | none =>
  match lookupB (bytes ("TS")) tv with
  | some (.vstr s) =>
    match splitByte 58 s with
    | [p0, p1] =>
      match atoi p0, atoi p1 with
      | some sec, some nsec =>
        .ok (some (.ts (timeUnixPair sec nsec).1 (timeUnixPair sec nsec).2))
      | _, _ => .error ()
    | _ => .error ()
  | some _ => .error ()
  | none => .ok none

/-- `decodeTypedAttributes`: `{"age": {"N": "30"}} -> {"age": 30}`; an
envelope of unknown kind contributes no attribute. -/
def decodeTypedAttributes (M : FloatModel)
    (typed : List (List Nat × List (List Nat × EncVal))) :
    Except Unit (List (List Nat × AttrValue M)) :=
  match typed with
  | [] => .ok []
  | (name, tv) :: rest =>
    match decodeTypedAttr M tv with
    | .error e => .error e
    | .ok none => decodeTypedAttributes M rest
    | .ok (some v) =>
      match decodeTypedAttributes M rest with
      | .error e => .error e
      | .ok tail => .ok ((name, v) :: tail)

theorem decodeTypedAttr_N (M : FloatModel) (s : List Nat) :
    decodeTypedAttr M [(bytes ("N"), .vstr s)] =
      match atoi s with
      | some i => .ok (some (.int i))
      | none =>
        match M.parse s with
        | some f => .ok (some (.flt f))
        | none => .error () := rfl

theorem decodeTypedAttr_B (M : FloatModel) (s : List Nat) :
    decodeTypedAttr M [(bytes ("B"), .vstr s)] =
      match decodeB64 s with
      | some b => .ok (some (.blob b))
      | none => .error () := rfl

theorem decodeTypedAttr_TS (M : FloatModel) (s : List Nat) :
    decodeTypedAttr M [(bytes ("TS"), .vstr s)] =
      match splitByte 58 s with
      | [p0, p1] =>
        match atoi p0, atoi p1 with
        | some sec, some nsec =>
          .ok (some (.ts (timeUnixPair sec nsec).1 (timeUnixPair sec nsec).2))
        | _, _ => .error ()
      | _ => .error () := rfl

theorem decodeTypedAttr_encodeTypedAttr (M : FloatModel) (v : AttrValue M)
    (hv : validAttr v = true) :
    decodeTypedAttr M (encodeTypedAttr v) = .ok (some v) := by
  cases v with
  | int i =>
    simp only [validAttr, Bool.and_eq_true, decide_eq_true_eq] at hv
    show decodeTypedAttr M [(bytes ("N"), .vstr (itoa i))] = .ok (some (.int i))
    rw [decodeTypedAttr_N, atoi_itoa i hv.1 hv.2]
  | flt f =>
    show decodeTypedAttr M [(bytes ("N"), .vstr (M.format f))] = .ok (some (.flt f))
    rw [decodeTypedAttr_N, M.format_not_int f, M.parse_format f]
  | str s => rfl
  | blob b =>
    simp only [validAttr, List.all_eq_true, decide_eq_true_eq] at hv
    show decodeTypedAttr M [(bytes ("B"), .vstr (encodeB64 b))] = .ok (some (.blob b))
    rw [decodeTypedAttr_B, decodeB64_encodeB64 b hv]
  | boolean b => rfl
  | ts sec nsec =>
    simp only [validAttr, Bool.and_eq_true, decide_eq_true_eq] at hv
    obtain ⟨⟨⟨h1, h2⟩, h3⟩, h4⟩ := hv
    show decodeTypedAttr M [(bytes ("TS"), .vstr (itoa sec ++ 58 :: itoa nsec))] =
      .ok (some (.ts sec nsec))
    rw [decodeTypedAttr_TS,
      splitByte_append_sep 58 (itoa sec) (itoa nsec)
        (fun hm => itoa_no_colon sec 58 hm rfl),
      splitByte_no_sep 58 (itoa nsec) (fun hm => itoa_no_colon nsec 58 hm rfl)]
    have He : (match [itoa sec, itoa nsec] with
        | [p0, p1] =>
          match atoi p0, atoi p1 with
          | some a2, some b2 =>
            (Except.ok (some (AttrValue.ts (M := M) (timeUnixPair a2 b2).1
              (timeUnixPair a2 b2).2)) : Except Unit (Option (AttrValue M)))
          | _, _ => Except.error ()
        | _ => Except.error ()) =
        match atoi (itoa sec), atoi (itoa nsec) with
        | some a2, some b2 =>
          Except.ok (some (AttrValue.ts (timeUnixPair a2 b2).1 (timeUnixPair a2 b2).2))
        | _, _ => Except.error () := rfl
    rw [He, atoi_itoa sec h1 h2, atoi_itoa nsec (by omega) (by omega)]
    simp [timeUnixPair_of_range sec nsec h3 h4]

/-- C1: decoding the typed-attribute envelope produced by encoding gives the
original attribute map back, for every supported kind: signed 64-bit
integers, doubles (via the strconv round-trip contract carried by the
`FloatModel`), UTF-8 strings, byte blobs bytewise, booleans, and timestamps
at nanosecond resolution. -/
theorem c1_typed_attributes_roundtrip (M : FloatModel)
    (attrs : List (List Nat × AttrValue M))
    (h : ∀ p ∈ attrs, validAttr p.2 = true) :
    decodeTypedAttributes M (encodeTypedAttributes attrs) = .ok attrs := by
  induction attrs with
  | nil => rfl
  | cons p rest ih =>
    obtain ⟨name, v⟩ := p
    have hv : validAttr v = true := h (name, v) (List.mem_cons_self _ _)
    have hrest : ∀ q ∈ rest, validAttr q.2 = true :=
      fun q hq => h q (List.mem_cons_of_mem _ hq)
    show decodeTypedAttributes M ((name, encodeTypedAttr v) :: encodeTypedAttributes rest) =
      .ok ((name, v) :: rest)
    simp only [decodeTypedAttributes, decodeTypedAttr_encodeTypedAttr M v hv, ih hrest]

/-- A concrete instance of the strconv float contract used as a witness. -/
def unitFloatModel : FloatModel where
  F := Unit
  format := fun _ => bytes ("0E+00")
  parse := fun s => if s = bytes ("0E+00") then some () else none
  format_not_int := by
    intro f
    show atoi (bytes ("0E+00")) = none
    decide
  parse_format := by
    intro f
    cases f
    decide

def c1WitnessAttrs : List (List Nat × AttrValue unitFloatModel) :=
  [(bytes ("a"), .int 30),
   (bytes ("b"), .int (-9223372036854775808)),
   (bytes ("c"), .flt ()),
   (bytes ("d"), .str (bytes ("foo"))),
   (bytes ("e"), .blob [0, 1, 255, 7]),
   (bytes ("f"), .boolean true),
   (bytes ("g"), .ts 1581605100 498349956)]

theorem c1_typed_attributes_roundtrip_witness :
    (∀ p ∈ c1WitnessAttrs, validAttr p.2 = true) ∧
      decodeTypedAttributes unitFloatModel (encodeTypedAttributes c1WitnessAttrs) =
        .ok c1WitnessAttrs :=
  ⟨by decide, c1_typed_attributes_roundtrip unitFloatModel c1WitnessAttrs (by decide)⟩

/-! ## `sendRequest`: validation, retry loop, status handling (C2, C6)

The HTTP transport (`fasthttp.Client.Do` / `DoTimeout`) is an external
collaborator; it is modelled as an oracle mapping the attempt index to the
outcome of that round-trip. -/

inductive TransportErr where
  | connClosed
  | other (code : Nat)
deriving DecidableEq

inductive TransportResult where
  | ok (status : Nat)
  | fail (e : TransportErr)
deriving DecidableEq

/-- The `for i := 0; i < 8; i++` loop of `sendRequest`: perform the
round-trip; stop unless the error is exactly `fasthttp.ErrConnectionClosed`.
`fuel` is the number of further iterations the loop bound still allows
(the loop is entered with `i = 0`, `fuel = 7`).  Returns the final outcome
and the number of transport calls performed. -/
def retryLoop (t : Nat → TransportResult) : Nat → Nat → TransportResult × Nat
  | i, 0 => (t i, i + 1)
  | i, fuel + 1 =>
    if t i = .fail .connClosed then retryLoop t (i + 1) fuel else (t i, i + 1)

inductive SendErr where
  | emptyContainer
  | transport (e : TransportErr)
  | httpStatus (code : Nat) (responseAttached : Bool)
deriving DecidableEq

/-- The outcome of `sendRequest`: the response handed back (its HTTP status
when one is returned, `none` when the function returns `nil`), the error,
and how many transport round-trips were performed. -/
structure SendResult where
  response : Option Nat
  error : Option SendErr
  transportCalls : Nat
deriving DecidableEq

structure SendInput where
  containerName : List Nat
  includeResponseInError : Bool

/-- `sendRequest`: reject an empty `ContainerName` before any transport
call; run the retry loop; map a transport error to `nil, err`; map a
non-2xx status to a status error (with the response attached only when the
input asks for it); release the response when `releaseResponse` is set. -/
def sendRequest (inp : SendInput) (t : Nat → TransportResult)
    (releaseResponse : Bool) : SendResult :=
  if inp.containerName = [] then
    { response := none, error := some .emptyContainer, transportCalls := 0 }
  else
    match retryLoop t 0 7 with
    | (.fail e, n) =>
      { response := none, error := some (.transport e), transportCalls := n }
    | (.ok status, n) =>
      if 200 ≤ status ∧ status < 300 then
        if releaseResponse then
          { response := none, error := none, transportCalls := n }
        else
          { response := some status, error := none, transportCalls := n }
      else
        { response := none,
          error := some (.httpStatus status inp.includeResponseInError),
          transportCalls := n }

theorem retryLoop_calls_le (t : Nat → TransportResult) :
    ∀ fuel i, (retryLoop t i fuel).2 ≤ i + fuel + 1 := by
  intro fuel
  induction fuel with
  | zero => intro i; simp [retryLoop]
  | succ f ih =>
    intro i
    simp only [retryLoop]
    by_cases h : t i = .fail .connClosed
    · rw [if_pos h]
      have := ih (i + 1)
      omega
    · rw [if_neg h]
      simp

theorem retryLoop_all_connClosed (t : Nat → TransportResult) :
    ∀ fuel i, (∀ j, j < i + fuel + 1 → t j = .fail .connClosed) →
      retryLoop t i fuel = (.fail .connClosed, i + fuel + 1) := by
  intro fuel
  induction fuel with
  | zero =>
    intro i h
    simp only [retryLoop]
    rw [h i (by omega)]
  | succ f ih =>
    intro i h
    simp only [retryLoop]
    rw [if_pos (h i (by omega))]
    have := ih (i + 1) (fun j hj => h j (by omega))
    rw [this]
    have he : i + 1 + f + 1 = i + (f + 1) + 1 := by omega
    rw [he]

theorem retryLoop_succeeds_last (t : Nat → TransportResult) :
    ∀ fuel i, (∀ j, j < i + fuel → t j = .fail .connClosed) →
      t (i + fuel) ≠ .fail .connClosed →
      retryLoop t i fuel = (t (i + fuel), i + fuel + 1) := by
  intro fuel
  induction fuel with
  | zero =>
    intro i _ _
    simp [retryLoop]
  | succ f ih =>
    intro i h hl
    simp only [retryLoop]
    rw [if_pos (h i (by omega))]
    have h2 : ∀ j, j < (i + 1) + f → t j = .fail .connClosed := fun j hj => h j (by omega)
    have hl2 : t ((i + 1) + f) ≠ .fail .connClosed := by
      have : (i + 1) + f = i + (f + 1) := by omega
      rw [this]; exact hl
    have := ih (i + 1) h2 hl2
    rw [this]
    have : (i + 1) + f = i + (f + 1) := by omega
    rw [this]

/-- C2: the `sendRequest` retry loop retries only on the connection-closed
sentinel and for at most 8 attempts: 7 sentinels then a success yield one
logical success after 8 transport calls; 8 sentinels surface the
connection-closed error; any other transport error surfaces after a single
call; and no execution performs more than 8 transport calls. -/
theorem c2_send_request_retry (inp : SendInput)
    (t1 t2 t3 t4 : Nat → TransportResult) (e : TransportErr) (rel : Bool)
    (hc : inp.containerName ≠ [])
    (h1a : ∀ j, j < 7 → t1 j = .fail .connClosed) (h1b : t1 7 = .ok 200)
    (h2 : ∀ j, j < 8 → t2 j = .fail .connClosed)
    (h3a : e ≠ .connClosed) (h3b : t3 0 = .fail e) :
    sendRequest inp t1 false = ⟨some 200, none, 8⟩ ∧
      sendRequest inp t2 false = ⟨none, some (.transport .connClosed), 8⟩ ∧
      sendRequest inp t3 false = ⟨none, some (.transport e), 1⟩ ∧
      (sendRequest inp t4 rel).transportCalls ≤ 8 := by
  refine ⟨?_, ?_, ?_, ?_⟩
  · have hr1 : retryLoop t1 0 7 = (.ok 200, 8) := by
      have hend : t1 (0 + 7) ≠ .fail .connClosed := by
        rw [show 0 + 7 = 7 from rfl, h1b]; simp
      have := retryLoop_succeeds_last t1 7 0 (fun j hj => h1a j (by omega)) hend
      rw [show 0 + 7 = 7 from rfl, h1b] at this
      simpa using this
    simp only [sendRequest]
    rw [if_neg hc, hr1]
    norm_num
  · have hr2 : retryLoop t2 0 7 = (.fail .connClosed, 8) := by
      have := retryLoop_all_connClosed t2 7 0 (fun j hj => h2 j (by omega))
      simpa using this
    simp only [sendRequest]
    rw [if_neg hc, hr2]
  · have hr3 : retryLoop t3 0 7 = (.fail e, 1) := by
      simp only [retryLoop]
      rw [h3b, if_neg (by simp [h3a])]
    simp only [sendRequest]
    rw [if_neg hc, hr3]
  · by_cases hc4 : inp.containerName = []
    · simp [sendRequest, hc4]
    · have hb := retryLoop_calls_le t4 7 0
      rcases hr : retryLoop t4 0 7 with ⟨r, n⟩
      rw [hr] at hb
      have hn : n ≤ 8 := by omega
      cases r with
      | fail e2 => simp [sendRequest, hc4, hr, hn]
      | ok status =>
        by_cases hs : 200 ≤ status ∧ status < 300
        · cases rel <;> simp [sendRequest, hc4, hr, hs, hn]
        · simp [sendRequest, hc4, hr, hs, hn]

def c2Inp : SendInput := ⟨bytes ("c"), false⟩

def c2T1 : Nat → TransportResult := fun i => if i < 7 then .fail .connClosed else .ok 200

def c2T2 : Nat → TransportResult := fun _ => .fail .connClosed

def c2T3 : Nat → TransportResult := fun _ => .fail (.other 3)

theorem c2_send_request_retry_witness :
    sendRequest c2Inp c2T1 false = ⟨some 200, none, 8⟩ ∧
      sendRequest c2Inp c2T2 false = ⟨none, some (.transport .connClosed), 8⟩ ∧
      sendRequest c2Inp c2T3 false = ⟨none, some (.transport (.other 3)), 1⟩ ∧
      (sendRequest c2Inp c2T2 true).transportCalls ≤ 8 :=
  c2_send_request_retry c2Inp c2T1 c2T2 c2T3 c2T2 (.other 3) true
    (by decide) (by decide) (by decide) (by decide) (by decide) (by decide)

/-! ## `PutItemsSync` (C6) -/

structure PutItemsResult where
  success : Bool
  errors : List (List Nat × SendErr)
  error : Option SendErr
  hasResponse : Bool
  transportCalls : Nat
deriving DecidableEq

/-- `PutItemsSync`: allocate a response container up front, issue one
`putItem` (one `sendRequest`) per item key, shove each per-key error into
the `Errors` map, clear `Success` when any exists, and return the response
with a `nil` top-level error. -/
def putItemsSync (inp : SendInput) (t : Nat → TransportResult)
    (itemKeys : List (List Nat)) : PutItemsResult :=
  let results := itemKeys.map fun k => (k, (sendRequest inp t false).error)
  let errs := results.filterMap fun p => p.2.map fun e => (p.1, e)
  { success := errs.isEmpty
    errors := errs
    error := none
    hasResponse := true
    transportCalls := itemKeys.length * (sendRequest inp t false).transportCalls }

/-- C6 counterexample: `PutItemsSync` on a `DataPlaneInput` with an empty
`ContainerName` and one item returns no top-level error and a response
(whose `Errors` map holds the per-key validation failure) — the operation
does not surface an input-validation error with no response attached. -/
theorem c6_put_items_counterexample :
    (putItemsSync ⟨[], false⟩ (fun _ => .ok 200) [bytes ("it1")]).error = none ∧
      (putItemsSync ⟨[], false⟩ (fun _ => .ok 200) [bytes ("it1")]).hasResponse = true ∧
      (putItemsSync ⟨[], false⟩ (fun _ => .ok 200) [bytes ("it1")]).errors =
        [(bytes ("it1"), .emptyContainer)] := by
  refine ⟨rfl, rfl, ?_⟩
  rfl

/-- C6 amended: a `DataPlaneInput` with empty `ContainerName` is rejected by
`sendRequest` before any transport call, with no response and the
validation error surfaced — so every synchronous operation whose round-trip
goes directly through `sendRequest` behaves as the claim states — but
`PutItemsSync` instead reports the per-key validation errors inside its
output, returns a response, and a `nil` top-level error (with no transport
call either). -/
theorem c6_empty_container_amended (inp inp2 : SendInput)
    (t t2 : Nat → TransportResult) (rel : Bool) (keys : List (List Nat))
    (h : inp.containerName = []) (h2 : inp2.containerName = []) :
    sendRequest inp t rel = ⟨none, some .emptyContainer, 0⟩ ∧
      putItemsSync inp2 t2 keys =
        { success := keys.isEmpty
          errors := keys.map fun k => (k, .emptyContainer)
          error := none
          hasResponse := true
          transportCalls := 0 } := by
  have hs2 : sendRequest inp2 t2 false = ⟨none, some .emptyContainer, 0⟩ := by
    simp [sendRequest, h2]
  refine ⟨by simp [sendRequest, h], ?_⟩
  simp only [putItemsSync, hs2]
  have hfm : ∀ ks : List (List Nat),
      (ks.map fun k => (k, some SendErr.emptyContainer)).filterMap
        (fun p => p.2.map fun e => (p.1, e)) = ks.map fun k => (k, SendErr.emptyContainer) := by
    intro ks
    induction ks with
    | nil => rfl
    | cons k rest ih => simp [ih]
  have hie : ∀ ks : List (List Nat),
      ((ks.map fun k => (k, SendErr.emptyContainer)).isEmpty) = ks.isEmpty := by
    intro ks
    cases ks <;> rfl
  simp [hfm, hie]

theorem c6_empty_container_amended_witness :
    sendRequest ⟨[], false⟩ (fun _ => .ok 200) true = ⟨none, some .emptyContainer, 0⟩ ∧
      putItemsSync ⟨[], true⟩ (fun _ => .fail .connClosed) [bytes ("k1"), bytes ("k2")] =
        { success := ([bytes ("k1"), bytes ("k2")] : List (List Nat)).isEmpty
          errors := ([bytes ("k1"), bytes ("k2")] : List (List Nat)).map
            fun k => (k, .emptyContainer)
          error := none
          hasResponse := true
          transportCalls := 0 } :=
  c6_empty_container_amended ⟨[], false⟩ ⟨[], true⟩ (fun _ => .ok 200)
    (fun _ => .fail .connClosed) true [bytes ("k1"), bytes ("k2")] rfl rfl

/-! ## `parseMtimeHeader` (C3) -/

/-- Outcome of `parseMtimeHeader`: a parsed `(secs, nsecs)` pair, a returned
error, or a runtime panic (`mtimeParts[1]` indexed out of range). -/
inductive MtimeRes where
  | ok (secs nsecs : Int)
  | err
  | crash
deriving DecidableEq

/-- `trimAndParseInt`. -/
def trimAndParseInt (s : List Nat) : Option Int := atoi (trimSpaceB s)

/-- The loop body of `parseMtimeHeader` over the `"and"`-separated clauses,
threading the accumulated `mtimeSecs`/`mtimeNSecs` (zero-initialised); a
clause whose `"=="`-split head trims to neither key returns an error, and a
matching clause lacking a second `"=="` part panics. -/
def parseMtimeClauses : List (List Nat) → Int → Int → MtimeRes
  | [], secs, nsecs => .ok secs nsecs
  | e :: rest, secs, nsecs =>
    let mtimeParts := splitSub (bytes ("==")) e
    let mtimeType := trimSpaceB (mtimeParts.headD [])
    if mtimeType = bytes ("__mtime_secs") then
      match mtimeParts.get? 1 with
      | none => .crash
      | some p =>
        match trimAndParseInt p with
        | none => .err
        | some v => parseMtimeClauses rest v nsecs
    else if mtimeType = bytes ("__mtime_nsecs") then
      match mtimeParts.get? 1 with
      | none => .crash
      | some p =>
        match trimAndParseInt p with
        | none => .err
        | some v => parseMtimeClauses rest secs v
    else .err

/-- `parseMtimeHeader`: split the `X-v3io-transaction-verifier` header on the
literal token `"and"`, then each clause on `"=="`. -/
def parseMtimeHeader (header : List Nat) : MtimeRes :=
  parseMtimeClauses (splitSub (bytes ("and")) header) 0 0

/-- C3 counterexample: the header `"__mtime_secs==1"` is not of the literal
shape `__mtime_secs==<n> and __mtime_nsecs==<n>`, yet `parseMtimeHeader`
returns success `(1, 0)` instead of an error. -/
theorem c3_parse_mtime_counterexample :
    parseMtimeHeader (bytes ("__mtime_secs==1")) = .ok 1 0 := by decide

/-- C3 amended: the well-formed header parses to `(1, 2)`, but the parser is
lenient rather than shape-validating: a lone `__mtime_secs` clause succeeds
with the missing field defaulting to 0, a matching key with no `==` panics
with an index-out-of-range, and only a clause with an unknown key yields an
error. -/
theorem c3_parse_mtime_amended :
    parseMtimeHeader (bytes ("__mtime_secs==1 and __mtime_nsecs==2")) = .ok 1 2 ∧
      parseMtimeHeader (bytes ("__mtime_secs==1")) = .ok 1 0 ∧
      parseMtimeHeader (bytes ("__mtime_nsecs==2 and __mtime_secs==1")) = .ok 1 2 ∧
      parseMtimeHeader (bytes ("__mtime_secs")) = .crash ∧
      parseMtimeHeader (bytes ("foo==1")) = .err := by
  refine ⟨by decide, by decide, by decide, by decide, by decide⟩

/-! ## `FileMode` decoding (C4) -/

/-- `strconv.ParseUint(s, base, 32)` for base 8 or 10: no sign, at least one
digit valid in the base, value below `2^32`. -/
def parseUintB (base : Nat) (s : List Nat) : Option Nat :=
  match s.mapM (fun b => if 48 ≤ b ∧ b < 48 + base then some (b - 48) else none) with
  | none => none
  | some ds =>
    if ds = [] then none
    else if ds.foldl (fun acc d => acc * base + d) 0 < 2 ^ 32 then
      some (ds.foldl (fun acc d => acc * base + d) 0)
    else none

theorem parseUintB_lt (base : Nat) (s : List Nat) (m : Nat)
    (h : parseUintB base s = some m) : m < 2 ^ 32 := by
  unfold parseUintB at h
  split at h
  · cases h
  · split at h
    · cases h
    · split at h
      · rename_i hv
        injection h with h2
        omega
      · cases h

/-- The Go `os.FileMode` type-bit constants (io/fs). -/
def goModeTypeMask : Nat :=
  2 ^ 31 + 2 ^ 27 + 2 ^ 26 + 2 ^ 25 + 2 ^ 24 + 2 ^ 21 + 2 ^ 19

/-- `os.FileMode.IsRegular`: no type bit set. -/
def goIsRegular (m : Nat) : Bool := m &&& goModeTypeMask = 0

/-- `os.FileMode.Perm`: the low 9 permission bits. -/
def goPerm (m : Nat) : Nat := m &&& 511

/-- The `mode` function decoding a v3io `FileMode` string into an
`os.FileMode` (a `uint32`, hence the final truncation): a string with the
prefix `"0"` is parsed base 8 and remapped
`((mode & 0xf000) << 17) | (mode & 0x1fff)`; any other string is parsed
base 10 and used directly.  A parse failure is an error (Go also carries
the placeholder value `S_IFMT` alongside it). -/
def goFileMode (s : List Nat) : Except Unit Nat :=
  if hasPrefixB s (bytes ("0")) then
    match parseUintB 8 s with
    | none => .error ()
    | some m => .ok ((((m &&& 0xf000) <<< 17) ||| (m &&& 0x1fff)) % 2 ^ 32)
  else
    match parseUintB 10 s with
    | none => .error ()
    | some m => .ok (m % 2 ^ 32)

/-- C4: a mode string starting with `"0"` is parsed base 8 and remapped by
shifting the top file-type nibble left by 17 bits and keeping the low 13
bits (truncated into the `uint32` `os.FileMode`); any other string is
parsed base 10 and used directly; both `"0100664"` and `"33204"` decode to
a regular file with permission bits `0664`. -/
theorem c4_file_mode (s1 s2 : List Nat) (m1 m2 : Nat)
    (h1 : hasPrefixB s1 (bytes ("0")) = true)
    (h2 : parseUintB 8 s1 = some m1)
    (h3 : hasPrefixB s2 (bytes ("0")) = false)
    (h4 : parseUintB 10 s2 = some m2) :
    goFileMode s1 = .ok ((((m1 &&& 0xf000) <<< 17) ||| (m1 &&& 0x1fff)) % 2 ^ 32) ∧
      goFileMode s2 = .ok m2 ∧
      goFileMode (bytes ("0100664")) = .ok 436 ∧
      goFileMode (bytes ("33204")) = .ok 33204 ∧
      goIsRegular 436 = true ∧ goPerm 436 = 0o664 ∧
      goIsRegular 33204 = true ∧ goPerm 33204 = 0o664 := by
  refine ⟨?_, ?_, by rfl, by rfl, by decide, by decide, by decide, by decide⟩
  · rw [goFileMode, if_pos h1, h2]
  · rw [goFileMode, if_neg (by simp [h3]), h4]
    have := parseUintB_lt 10 s2 m2 h4
    simp [Nat.mod_eq_of_lt this]
    omega

theorem c4_file_mode_witness :
    goFileMode (bytes ("0100664")) =
        .ok ((((33204 &&& 0xf000) <<< 17) ||| (33204 &&& 0x1fff)) % 2 ^ 32) ∧
      goFileMode (bytes ("33204")) = .ok 33204 ∧
      goFileMode (bytes ("0100664")) = .ok 436 ∧
      goFileMode (bytes ("33204")) = .ok 33204 ∧
      goIsRegular 436 = true ∧ goPerm 436 = 0o664 ∧
      goIsRegular 33204 = true ∧ goPerm 33204 = 0o664 :=
  c4_file_mode (bytes ("0100664")) (bytes ("33204")) 33204 33204
    (by decide) (by decide) (by decide) (by decide)

/-! ## The worker dispatch (C5)

`workerEntry`'s type switch over the concrete input structs.  Each variant
carries an opaque payload; the behaviour of each `<Op>Sync` call is an
oracle from the typed input to `(returned response, returned error)` —
`none` for the response models both a `nil` response and the void
operations that return only an error. -/

inductive OpInput where
  | putObject (d : Nat)
  | getObject (d : Nat)
  | deleteObject (d : Nat)
  | getItem (d : Nat)
  | getItems (d : Nat)
  | putItem (d : Nat)
  | putItems (d : Nat)
  | updateItem (d : Nat)
  | createStream (d : Nat)
  | describeStream (d : Nat)
  | deleteStream (d : Nat)
  | getRecords (d : Nat)
  | putRecords (d : Nat)
  | putChunk (d : Nat)
  | seekShard (d : Nat)
  | getContainers (d : Nat)
  | getContainerContents (d : Nat)
  | getClusterMD (d : Nat)
  | checkPathExists (d : Nat)
  | putOOSObject (d : Nat)
deriving DecidableEq

structure WRequest where
  id : Nat
  input : OpInput
  callerContext : Nat
deriving DecidableEq

/-- The response slot as delivered on the caller's channel: `output` is the
parsed output stamped from the sync call's response (`none` when that call
returned no response, or for a void operation, or when no case ran). -/
structure WResponse where
  id : Nat
  output : Option Nat
  error : Option Nat
  callerContext : Nat
deriving DecidableEq

/-- Behaviour of the synchronous operations, as observed by a worker: for
each input, the returned response's output (or `none`) and the returned
error (or `nil`). -/
def SyncOracle : Type := OpInput → Option Nat × Option Nat

/-- One `workerEntry` iteration on a dequeued request: the `switch` on the
input type, the copy of the sync call's response into the pre-allocated
slot (when one was returned), and the stamping of ID, error and caller
context.  The void operations (`PutObjectSync`, `DeleteObjectSync`,
`CreateStreamSync`, `DeleteStreamSync`, `PutChunkSync`,
`CheckPathExistsSync`) return only an error.  There is no case for
`PutOOSObjectInput`: it falls into the `default` branch, which only logs
"Got unexpected request type" — no sync call runs and the zero-valued
response slot is delivered with a `nil` error. -/
def workerStep (oracle : SyncOracle) (req : WRequest) : WResponse :=
  match req.input with
  | .putObject _ => ⟨req.id, none, (oracle req.input).2, req.callerContext⟩
  | .getObject _ => ⟨req.id, (oracle req.input).1, (oracle req.input).2, req.callerContext⟩
  | .deleteObject _ => ⟨req.id, none, (oracle req.input).2, req.callerContext⟩
  | .getItem _ => ⟨req.id, (oracle req.input).1, (oracle req.input).2, req.callerContext⟩
  | .getItems _ => ⟨req.id, (oracle req.input).1, (oracle req.input).2, req.callerContext⟩
  | .putItem _ => ⟨req.id, (oracle req.input).1, (oracle req.input).2, req.callerContext⟩
  | .putItems _ => ⟨req.id, (oracle req.input).1, (oracle req.input).2, req.callerContext⟩
  | .updateItem _ => ⟨req.id, (oracle req.input).1, (oracle req.input).2, req.callerContext⟩
  | .createStream _ => ⟨req.id, none, (oracle req.input).2, req.callerContext⟩
  | .describeStream _ =>
    ⟨req.id, (oracle req.input).1, (oracle req.input).2, req.callerContext⟩
  | .deleteStream _ => ⟨req.id, none, (oracle req.input).2, req.callerContext⟩
  | .getRecords _ => ⟨req.id, (oracle req.input).1, (oracle req.input).2, req.callerContext⟩
  | .putRecords _ => ⟨req.id, (oracle req.input).1, (oracle req.input).2, req.callerContext⟩
  | .putChunk _ => ⟨req.id, none, (oracle req.input).2, req.callerContext⟩
  | .seekShard _ => ⟨req.id, (oracle req.input).1, (oracle req.input).2, req.callerContext⟩
  | .getContainers _ =>
    ⟨req.id, (oracle req.input).1, (oracle req.input).2, req.callerContext⟩
  | .getContainerContents _ =>
    ⟨req.id, (oracle req.input).1, (oracle req.input).2, req.callerContext⟩
  | .getClusterMD _ =>
    ⟨req.id, (oracle req.input).1, (oracle req.input).2, req.callerContext⟩
  | .checkPathExists _ => ⟨req.id, none, (oracle req.input).2, req.callerContext⟩
  | .putOOSObject _ => ⟨req.id, none, none, req.callerContext⟩

/-- An oracle under which `PutOOSObjectSync` would fail with error 7. -/
def c5Oracle : SyncOracle := fun _ => (none, some 7)

/-- C5: the worker does not dispatch `PutOOSObjectInput` — although
`PutOOSObject` enqueues that input type, the switch has no case for it, so
the delivered response carries a `nil` error and no output even when
`PutOOSObjectSync` would have failed: the delivered error differs from the
sync operation's error. -/
theorem c5_put_oos_object_not_dispatched :
    workerStep c5Oracle ⟨1, .putOOSObject 0, 2⟩ = ⟨1, none, none, 2⟩ ∧
      (c5Oracle (.putOOSObject 0)).2 = some 7 ∧
      (workerStep c5Oracle ⟨1, .putOOSObject 0, 2⟩).error ≠
        (c5Oracle (.putOOSObject 0)).2 := by
  refine ⟨rfl, rfl, by decide⟩

/-! ## Consumer-group default configuration (C9)

`streamconsumergroup.NewConfig`.  Durations are `time.Duration` values,
i.e. signed 64-bit nanosecond counts. -/

def nanosecondD : Int := 1

def microsecondD : Int := 1000

def millisecondD : Int := 1000 * microsecondD

def secondD : Int := 1000 * millisecondD

/-- `common.Backoff` as used by `NewConfig` (its `Min`/`Max` durations and
`Factor`). -/
structure BackoffCfg where
  min : Int
  max : Int
  factor : Int
deriving DecidableEq

structure SessionCfg where
  timeout : Int
  heartbeatInterval : Int
deriving DecidableEq

structure ModifyRetryCfg where
  attempts : Int
  backoff : BackoffCfg
deriving DecidableEq

structure StateCfg where
  modifyRetry : ModifyRetryCfg
deriving DecidableEq

structure SequenceNumberCfg where
  commitInterval : Int
  shardWaitInterval : Int
deriving DecidableEq

structure RecordBatchFetchCfg where
  interval : Int
  numRecordsInBatch : Int
  initialLocation : Nat
deriving DecidableEq

structure GetShardLocationRetryCfg where
  attempts : Int
  backoff : BackoffCfg
deriving DecidableEq

structure ClaimCfg where
  recordBatchChanSize : Int
  recordBatchFetch : RecordBatchFetchCfg
  getShardLocationRetry : GetShardLocationRetryCfg
deriving DecidableEq

structure Config where
  session : SessionCfg
  state : StateCfg
  sequenceNumber : SequenceNumberCfg
  claim : ClaimCfg
deriving DecidableEq

/-- `SeekShardInputType` constants (`iota`): Time, Sequence, Latest,
Earliest. -/
def seekShardInputTypeEarliest : Nat := 3

/-- `NewConfig`: the default consumer-group configuration. -/
def NewConfig : Config where
  session := { timeout := 10 * secondD, heartbeatInterval := 3 * secondD }
  state := { modifyRetry :=
    { attempts := 100
      backoff := { min := 50 * millisecondD, max := 1 * secondD, factor := 4 } } }
  sequenceNumber := { commitInterval := 10 * secondD, shardWaitInterval := 1 * secondD }
  claim :=
    { recordBatchChanSize := 100
      recordBatchFetch :=
        { interval := 250 * millisecondD
          numRecordsInBatch := 10
          initialLocation := seekShardInputTypeEarliest }
      getShardLocationRetry :=
        { attempts := 100
          backoff := { min := 50 * millisecondD, max := 1 * secondD, factor := 2 } } }

/-- C9 counterexample: the default session timeout (10s) is not three times
the default heartbeat interval (3s). -/
theorem c9_default_timeout_counterexample :
    NewConfig.session.timeout ≠ 3 * NewConfig.session.heartbeatInterval := by decide

/-- C9 amended: the defaults are a 10-second session timeout and a 3-second
heartbeat interval; the timeout exceeds three heartbeat intervals but is
less than four, so with the default configuration a session is lost only
after more than three heartbeat intervals have been missed. -/
theorem c9_default_config_amended :
    NewConfig.session.timeout = 10 * secondD ∧
      NewConfig.session.heartbeatInterval = 3 * secondD ∧
      3 * NewConfig.session.heartbeatInterval < NewConfig.session.timeout ∧
      NewConfig.session.timeout < 4 * NewConfig.session.heartbeatInterval := by
  refine ⟨rfl, rfl, by decide, by decide⟩

/-! ## Go `path` package: `Clean`, `Join`, `Dir` (documented semantics) -/

/-- Join byte strings with a separator byte (`strings.Join`). -/
def joinByte (sep : Nat) : List (List Nat) → List Nat
  | [] => []
  | [x] => x
  | x :: xs => x ++ sep :: joinByte sep xs

/-- The element processing of `path.Clean`, over the `"/"`-split segments,
with the output kept reversed: empty and `"."` segments are dropped;
`".."` pops a poppable segment, is dropped at the root of a rooted path,
and is kept otherwise; any other segment is kept. -/
def cleanSegsRev (rooted : Bool) : List (List Nat) → List (List Nat) → List (List Nat)
  | [], acc => acc
  | seg :: rest, acc =>
    if seg = [] ∨ seg = [46] then cleanSegsRev rooted rest acc
    else if seg = [46, 46] then
      match acc with
      | top :: acc2 =>
        if top = [46, 46] then cleanSegsRev rooted rest (seg :: top :: acc2)
        else cleanSegsRev rooted rest acc2
      | [] =>
        if rooted then cleanSegsRev rooted rest []
        else cleanSegsRev rooted rest [seg]
    else cleanSegsRev rooted rest (seg :: acc)

/-- `path.Clean`. -/
def goClean (s : List Nat) : List Nat :=
  if s = [] then [46]
  else
    let rooted : Bool := decide (s.headD 0 = 47)
    let body := joinByte 47 ((cleanSegsRev rooted (splitByte 47 s) []).reverse)
    if rooted then 47 :: body
    else if body = [] then [46] else body

/-- `path.Split`: cut after the final `"/"`; the directory part keeps the
trailing slash. -/
def goSplitPath (s : List Nat) : List Nat × List Nat :=
  let file := (s.reverse.takeWhile fun b => decide (b ≠ 47)).reverse
  (s.take (s.length - file.length), file)

/-- `path.Dir`: the `Clean`ed directory part of `Split`. -/
def goDir (s : List Nat) : List Nat := goClean (goSplitPath s).1

/-- `buildRequestURI`'s path computation:
`uri.Path = path.Clean(path.Join("/", containerName, pathStr))`, plus the
trailing slash retained when `pathStr` has one.  (`path.Join` itself cleans
the `"/"`-joined elements; the leading `"/"` element is never empty, so the
join is exactly the separator-interleaved concatenation.) -/
def buildURIPath (container pathStr : List Nat) : List Nat :=
  let joined := goClean (joinByte 47 [[47], container, pathStr])
  let cleaned := goClean joined
  if hasSuffixB pathStr [47] then cleaned ++ [47] else cleaned

/-! ## `DeleteStreamSync` (C8, C10) -/

/-- The path of the final `DeleteObjectSync` issued by `DeleteStreamSync`:
`"/" + path.Dir(input.Path) + "/"`. -/
def deleteStreamFinalPath (inputPath : List Nat) : List Nat :=
  [47] ++ goDir inputPath ++ [47]

/-- `DeleteStreamSync` against oracles for its two collaborators: the
listing (`GetContainerContentsSync`, yielding the children keys or an
error) and `DeleteObjectSync` (keyed by path).  Returns the outcomes of
the per-child deletions — which the source computes and discards — and
the value returned to the caller: the listing error, or else the outcome
of the final parent-directory deletion only. -/
def deleteStreamSyncModel (listRes : Except Nat (List (List Nat)))
    (delObj : List Nat → Option Nat) (inputPath : List Nat) :
    List (Option Nat) × Option Nat :=
  match listRes with
  | .error e => ([], some e)
  | .ok contents =>
    (contents.map fun key => delObj ([47] ++ key),
     delObj (deleteStreamFinalPath inputPath))

/-- C8 counterexample: with one shard child whose deletion fails (error 5)
and a parent deletion that succeeds, `DeleteStreamSync` reports success
(`nil`), although the last error among the composite's deletions is the
child's error 5 — child errors are discarded, not "last error wins". -/
theorem c8_delete_stream_counterexample :
    (deleteStreamSyncModel (.ok [bytes ("mystream/0")])
        (fun p => if p = 47 :: bytes ("mystream/0") then some 5 else none)
        (bytes ("mystream/"))).1 = [some 5] ∧
      (deleteStreamSyncModel (.ok [bytes ("mystream/0")])
        (fun p => if p = 47 :: bytes ("mystream/0") then some 5 else none)
        (bytes ("mystream/"))).2 = none := by
  refine ⟨by decide, by decide⟩

/-- C8 amended: `DeleteStream` is composite — list the children, issue one
delete per child, then delete the parent — and it continues past child
failures, but their errors are discarded entirely: the caller sees the
listing error when listing fails, and otherwise exactly the outcome of the
final parent-directory deletion, regardless of the child outcomes. -/
theorem c8_delete_stream_amended (e : Nat) (contents : List (List Nat))
    (delObj : List Nat → Option Nat) (p : List Nat) :
    deleteStreamSyncModel (.error e) delObj p = ([], some e) ∧
      (deleteStreamSyncModel (.ok contents) delObj p).2 =
        delObj (deleteStreamFinalPath p) ∧
      (deleteStreamSyncModel (.ok contents) delObj p).1 =
        contents.map fun key => delObj ([47] ++ key) :=
  ⟨rfl, rfl, rfl⟩

/-! ## Normal path segments and `goClean` on them (toward C10) -/

/-- A normal path segment: nonempty, not `"."`, not `".."`, slash-free —
the shape of real container names, stream names and shard names. -/
def NormalSeg (p : List Nat) : Prop :=
  p ≠ [] ∧ p ≠ [46] ∧ p ≠ [46, 46] ∧ 47 ∉ p

/-- A segment that `path.Clean` drops. -/
def SkipSeg (p : List Nat) : Prop := p = [] ∨ p = [46]

/-- A segment that is either dropped or kept verbatim (no `".."`). -/
def OkSeg (p : List Nat) : Prop := SkipSeg p ∨ NormalSeg p

def keepSeg (p : List Nat) : Bool := !(decide (p = [] ∨ p = [46]))

theorem okSeg_no_slash (p : List Nat) (h : OkSeg p) : 47 ∉ p := by
  rcases h with (rfl | rfl) | hn
  · simp
  · simp
  · exact hn.2.2.2

theorem normalSeg_keep (p : List Nat) (h : NormalSeg p) : keepSeg p = true := by
  simp only [keepSeg, Bool.not_eq_true', decide_eq_false_iff_not]
  rintro (rfl | rfl)
  · exact h.1 rfl
  · exact h.2.1 rfl

theorem joinByte_cons (sep : Nat) (x : List Nat) (xs : List (List Nat)) (h : xs ≠ []) :
    joinByte sep (x :: xs) = x ++ sep :: joinByte sep xs := by
  cases xs with
  | nil => exact absurd rfl h
  | cons y ys => rfl

theorem joinByte_append (sep : Nat) (xs ys : List (List Nat)) (hx : xs ≠ [])
    (hy : ys ≠ []) :
    joinByte sep (xs ++ ys) = joinByte sep xs ++ sep :: joinByte sep ys := by
  induction xs with
  | nil => exact absurd rfl hx
  | cons x xs2 ih =>
    cases xs2 with
    | nil =>
      rw [List.singleton_append, joinByte_cons sep x ys hy]
      rfl
    | cons x2 xs3 =>
      rw [List.cons_append, joinByte_cons sep x ((x2 :: xs3) ++ ys) (by simp),
        ih (by simp), joinByte_cons sep x (x2 :: xs3) (by simp)]
      simp

theorem splitByte_joinByte (sep : Nat) (segs : List (List Nat)) (hne : segs ≠ [])
    (h : ∀ p ∈ segs, sep ∉ p) :
    splitByte sep (joinByte sep segs) = segs := by
  induction segs with
  | nil => exact absurd rfl hne
  | cons x xs ih =>
    cases xs with
    | nil => exact splitByte_no_sep sep x (h x (by simp))
    | cons y ys =>
      rw [joinByte_cons sep x (y :: ys) (by simp),
        splitByte_append_sep sep x (joinByte sep (y :: ys)) (h x (by simp)),
        ih (by simp) (fun p hp => h p (List.mem_cons_of_mem x hp))]

theorem cleanSegsRev_ok (rooted : Bool) (parts : List (List Nat))
    (h : ∀ p ∈ parts, OkSeg p) :
    ∀ acc, cleanSegsRev rooted parts acc = (parts.filter keepSeg).reverse ++ acc := by
  induction parts with
  | nil => intro acc; simp [cleanSegsRev]
  | cons seg rest ih =>
    intro acc
    have hrest : ∀ p ∈ rest, OkSeg p := fun p hp => h p (List.mem_cons_of_mem seg hp)
    rcases h seg (List.mem_cons_self seg rest) with hskip | hnorm
    · have hskip2 : seg = [] ∨ seg = [46] := hskip
      have hk : keepSeg seg = false := by
        simp only [keepSeg, Bool.not_eq_true, Bool.not_eq_false', decide_eq_true_eq]
        exact hskip2
      simp only [cleanSegsRev]
      rw [if_pos hskip2, ih hrest acc, List.filter_cons, hk]
      simp
    · have hk : keepSeg seg = true := normalSeg_keep seg hnorm
      have hns2 : ¬(seg = [] ∨ seg = [46]) := by
        rintro (rfl | rfl)
        · exact hnorm.1 rfl
        · exact hnorm.2.1 rfl
      simp only [cleanSegsRev]
      rw [if_neg hns2, if_neg hnorm.2.2.1, ih hrest (seg :: acc), List.filter_cons, hk]
      simp

theorem joinByte_cons_ne_nil (sep : Nat) (x : List Nat) (xs : List (List Nat))
    (hx : x ≠ []) : joinByte sep (x :: xs) ≠ [] := by
  cases xs with
  | nil => exact hx
  | cons y ys =>
    rw [joinByte_cons sep x (y :: ys) (by simp)]
    simp [hx]

theorem goClean_rooted_join (rest2 : List (List Nat)) (hne : rest2 ≠ [])
    (h : ∀ p ∈ ([] :: rest2 : List (List Nat)), OkSeg p) :
    goClean (joinByte 47 ([] :: rest2)) =
      47 :: joinByte 47 (([] :: rest2).filter keepSeg) := by
  have hjoin : joinByte 47 ([] :: rest2) = 47 :: joinByte 47 rest2 := by
    rw [joinByte_cons 47 [] rest2 hne]; rfl
  have hsne : joinByte 47 ([] :: rest2) ≠ [] := by rw [hjoin]; simp
  have hsplit : splitByte 47 (joinByte 47 ([] :: rest2)) = [] :: rest2 :=
    splitByte_joinByte 47 ([] :: rest2) (by simp) (fun p hp => okSeg_no_slash p (h p hp))
  have hsplit2 : splitByte 47 (47 :: joinByte 47 rest2) = [] :: rest2 := hjoin ▸ hsplit
  unfold goClean
  rw [if_neg hsne]
  simp only [hjoin, hsplit2, List.headD_cons, decide_True]
  rw [cleanSegsRev_ok true ([] :: rest2) h []]
  simp

theorem goClean_rel_join (b : Nat) (xt : List Nat) (rest2 : List (List Nat))
    (hx : NormalSeg (b :: xt))
    (h : ∀ p ∈ ((b :: xt) :: rest2 : List (List Nat)), OkSeg p) :
    goClean (joinByte 47 ((b :: xt) :: rest2)) =
      joinByte 47 (((b :: xt) :: rest2).filter keepSeg) := by
  have hb47 : b ≠ 47 := fun he => hx.2.2.2 (he ▸ List.mem_cons_self b xt)
  have hsne : joinByte 47 ((b :: xt) :: rest2) ≠ [] :=
    joinByte_cons_ne_nil 47 (b :: xt) rest2 (by simp)
  have hsplit : splitByte 47 (joinByte 47 ((b :: xt) :: rest2)) = (b :: xt) :: rest2 :=
    splitByte_joinByte 47 ((b :: xt) :: rest2) (by simp)
      (fun p hp => okSeg_no_slash p (h p hp))
  have hhead : (joinByte 47 ((b :: xt) :: rest2)).headD 0 = b := by
    cases rest2 with
    | nil => rfl
    | cons y ys =>
      rw [joinByte_cons 47 (b :: xt) (y :: ys) (by simp)]
      rfl
  have hfne : joinByte 47 (((b :: xt) :: rest2).filter keepSeg) ≠ [] := by
    rw [List.filter_cons, normalSeg_keep (b :: xt) hx]
    simp only [if_pos trivial]
    exact joinByte_cons_ne_nil 47 (b :: xt) (rest2.filter keepSeg) (by simp)
  unfold goClean
  rw [if_neg hsne]
  have hrooted : (decide (b = 47)) = false := by simp [hb47]
  simp only [hsplit, hhead, hrooted]
  rw [cleanSegsRev_ok false ((b :: xt) :: rest2) h []]
  simp [hfne]

theorem filter_keep_normal (l : List (List Nat)) (h : ∀ p ∈ l, NormalSeg p) :
    l.filter keepSeg = l :=
  List.filter_eq_self.mpr fun p hp => normalSeg_keep p (h p hp)

theorem goClean_normal_join (segs : List (List Nat)) (hne : segs ≠ [])
    (h : ∀ p ∈ segs, NormalSeg p) :
    goClean (joinByte 47 segs) = joinByte 47 segs := by
  cases segs with
  | nil => exact absurd rfl hne
  | cons x rest =>
    have hx : NormalSeg x := h x (List.mem_cons_self x rest)
    cases x with
    | nil => exact absurd rfl hx.1
    | cons b xt =>
      rw [goClean_rel_join b xt rest hx (fun p hp => Or.inr (h p hp)),
        filter_keep_normal _ h]

theorem goClean_normal_join_slash (segs : List (List Nat)) (hne : segs ≠ [])
    (h : ∀ p ∈ segs, NormalSeg p) :
    goClean (joinByte 47 (segs ++ [[]])) = joinByte 47 segs := by
  cases segs with
  | nil => exact absurd rfl hne
  | cons x rest =>
    have hx : NormalSeg x := h x (List.mem_cons_self x rest)
    have hok : ∀ p ∈ (x :: (rest ++ [[]]) : List (List Nat)), OkSeg p := by
      intro p hp
      rcases List.mem_cons.mp hp with rfl | hp2
      · exact Or.inr hx
      · rcases List.mem_append.mp hp2 with hp3 | hp4
        · exact Or.inr (h p (List.mem_cons_of_mem x hp3))
        · left
          left
          simpa using hp4
    cases x with
    | nil => exact absurd rfl hx.1
    | cons b xt =>
      rw [show ((b :: xt) :: rest ++ [[]] : List (List Nat)) =
          (b :: xt) :: (rest ++ [[]]) from rfl,
        goClean_rel_join b xt (rest ++ [[]]) hx hok]
      rw [List.filter_cons, normalSeg_keep (b :: xt) hx]
      simp only [if_pos trivial, List.filter_append]
      rw [filter_keep_normal rest (fun p hp => h p (List.mem_cons_of_mem _ hp))]
      rw [show (List.filter keepSeg [[]] : List (List Nat)) = [] from rfl]
      rw [List.append_nil]

theorem takeWhile_all (l : List Nat) (h : ∀ x ∈ l, x ≠ 47) :
    (l.takeWhile fun b => decide (b ≠ 47)) = l := by
  induction l with
  | nil => rfl
  | cons x rest ih =>
    rw [List.takeWhile_cons]
    rw [if_pos (by simp [h x (List.mem_cons_self x rest)])]
    rw [ih fun y hy => h y (List.mem_cons_of_mem x hy)]

theorem takeWhile_until_slash (l1 l2 : List Nat) (h : ∀ x ∈ l1, x ≠ 47) :
    ((l1 ++ 47 :: l2).takeWhile fun b => decide (b ≠ 47)) = l1 := by
  induction l1 with
  | nil =>
    rw [List.nil_append, List.takeWhile_cons]
    simp
  | cons x rest ih =>
    rw [List.cons_append, List.takeWhile_cons]
    rw [if_pos (by simp [h x (List.mem_cons_self x rest)])]
    rw [ih fun y hy => h y (List.mem_cons_of_mem x hy)]

theorem goSplitPath_trailing_slash (l : List Nat) :
    goSplitPath (l ++ [47]) = (l ++ [47], []) := by
  unfold goSplitPath
  rw [List.reverse_append]
  rw [show (([47] : List Nat).reverse ++ l.reverse) = 47 :: l.reverse from by simp]
  rw [List.takeWhile_cons]
  simp

theorem goSplitPath_last (l lastSeg : List Nat) (h : 47 ∉ lastSeg) :
    goSplitPath (l ++ 47 :: lastSeg) = (l ++ [47], lastSeg) := by
  unfold goSplitPath
  have hrev : (l ++ 47 :: lastSeg).reverse = lastSeg.reverse ++ 47 :: l.reverse := by
    simp
  rw [hrev, takeWhile_until_slash lastSeg.reverse l.reverse
    (fun x hx he => h (List.mem_reverse.mp (he ▸ hx)))]
  rw [List.reverse_reverse]
  have hlen : (l ++ 47 :: lastSeg).length - lastSeg.length = l.length + 1 := by
    simp
    omega
  show (List.take ((l ++ 47 :: lastSeg).length - lastSeg.length) (l ++ 47 :: lastSeg),
      lastSeg) = (l ++ [47], lastSeg)
  rw [hlen]
  congr 1
  rw [show (l ++ 47 :: lastSeg : List Nat) = (l ++ [47]) ++ lastSeg from by simp]
  rw [show l.length + 1 = (l ++ [47]).length from by simp]
  exact List.take_left (l ++ [47]) lastSeg

theorem goSplitPath_no_slash (s : List Nat) (h : 47 ∉ s) :
    goSplitPath s = ([], s) := by
  unfold goSplitPath
  rw [takeWhile_all s.reverse (fun x hx he => h (List.mem_reverse.mp (he ▸ hx)))]
  simp

theorem hasSuffixB_slash (l : List Nat) : hasSuffixB (l ++ [47]) [47] = true := by
  unfold hasSuffixB
  rw [List.reverse_append]
  simp [hasPrefixB]

theorem joinByte_slash_tail (segs : List (List Nat)) (hne : segs ≠ []) :
    joinByte 47 (segs ++ [[]]) = joinByte 47 segs ++ [47] := by
  rw [joinByte_append 47 segs [[]] hne (by simp)]
  rfl

theorem joinByte_uri_expand (c X : List Nat) (partsX : List (List Nat))
    (hne : partsX ≠ []) (hX : X = joinByte 47 partsX) :
    joinByte 47 [[47], c, X] = joinByte 47 ([] :: [] :: c :: partsX) := by
  subst hX
  rw [joinByte_cons 47 [] ([] :: c :: partsX) (by simp),
    joinByte_cons 47 [] (c :: partsX) (by simp),
    joinByte_cons 47 c partsX hne]
  rfl

theorem okSeg_keep_normal (p : List Nat) (h : OkSeg p) (hk : keepSeg p = true) :
    NormalSeg p := by
  rcases h with hskip | hn
  · exfalso
    have : keepSeg p = false := by
      simp only [keepSeg, Bool.not_eq_true, Bool.not_eq_false', decide_eq_true_eq]
      exact hskip
    rw [this] at hk
    cases hk
  · exact hn

theorem buildURIPath_parts (c : List Nat) (partsX : List (List Nat)) (hc : NormalSeg c)
    (hX : ∀ p ∈ partsX, OkSeg p) (hne : partsX ≠ []) :
    goClean (goClean (joinByte 47 [[47], c, joinByte 47 partsX])) =
      47 :: joinByte 47 (c :: partsX.filter keepSeg) := by
  have hnf : ∀ p ∈ partsX.filter keepSeg, NormalSeg p := by
    intro p hp
    rw [List.mem_filter] at hp
    exact okSeg_keep_normal p (hX p hp.1) hp.2
  have hok1 : ∀ p ∈ ([] :: ([] :: c :: partsX) : List (List Nat)), OkSeg p := by
    intro p hp
    rcases List.mem_cons.mp hp with rfl | hp2
    · exact Or.inl (Or.inl rfl)
    · rcases List.mem_cons.mp hp2 with rfl | hp3
      · exact Or.inl (Or.inl rfl)
      · rcases List.mem_cons.mp hp3 with rfl | hp4
        · exact Or.inr hc
        · exact hX p hp4
  rw [joinByte_uri_expand c _ partsX hne rfl,
    goClean_rooted_join ([] :: c :: partsX) (by simp) hok1]
  have hfilter : (([] :: [] :: c :: partsX : List (List Nat))).filter keepSeg =
      c :: partsX.filter keepSeg := by
    rw [List.filter_cons, List.filter_cons, List.filter_cons, normalSeg_keep c hc,
      show keepSeg ([] : List Nat) = false from rfl]
    simp
  rw [hfilter]
  have hstep : (47 :: joinByte 47 (c :: partsX.filter keepSeg) : List Nat) =
      joinByte 47 ([] :: c :: partsX.filter keepSeg) := by
    rw [joinByte_cons 47 [] (c :: partsX.filter keepSeg) (by simp)]
    rfl
  rw [hstep]
  have hok2 : ∀ p ∈ ([] :: (c :: partsX.filter keepSeg) : List (List Nat)), OkSeg p := by
    intro p hp
    rcases List.mem_cons.mp hp with rfl | hp2
    · exact Or.inl (Or.inl rfl)
    · rcases List.mem_cons.mp hp2 with rfl | hp3
      · exact Or.inr hc
      · exact Or.inr (hnf p hp3)
  rw [goClean_rooted_join (c :: partsX.filter keepSeg) (by simp) hok2]
  have hfilter2 : (([] :: c :: partsX.filter keepSeg : List (List Nat))).filter keepSeg =
      c :: partsX.filter keepSeg := by
    rw [List.filter_cons, List.filter_cons, normalSeg_keep c hc,
      show keepSeg ([] : List Nat) = false from rfl,
      filter_keep_normal (partsX.filter keepSeg) hnf]
    simp
  rw [hfilter2]
  exact hstep

theorem buildURIPath_of_parts (c : List Nat) (partsX : List (List Nat)) (hc : NormalSeg c)
    (hX : ∀ p ∈ partsX, OkSeg p) (hne : partsX ≠ []) :
    buildURIPath c (joinByte 47 partsX ++ [47]) =
      (47 :: joinByte 47 (c :: partsX.filter keepSeg)) ++ [47] := by
  have hXext : ∀ p ∈ partsX ++ [[]], OkSeg p := by
    intro p hp
    rcases List.mem_append.mp hp with hp1 | hp2
    · exact hX p hp1
    · left
      left
      simpa using hp2
  simp only [buildURIPath]
  rw [hasSuffixB_slash (joinByte 47 partsX), if_pos rfl,
    show joinByte 47 partsX ++ [47] = joinByte 47 (partsX ++ [[]]) from
      (joinByte_slash_tail partsX hne).symm,
    buildURIPath_parts c (partsX ++ [[]]) hc hXext (by simp),
    List.filter_append, show (([[]] : List (List Nat)).filter keepSeg) = [] from rfl,
    List.append_nil]

theorem goDir_trailing (segs : List (List Nat)) (hne : segs ≠ [])
    (h : ∀ p ∈ segs, NormalSeg p) :
    goDir (joinByte 47 segs ++ [47]) = joinByte 47 segs := by
  unfold goDir
  rw [goSplitPath_trailing_slash (joinByte 47 segs)]
  show goClean (joinByte 47 segs ++ [47]) = joinByte 47 segs
  rw [show joinByte 47 segs ++ [47] = joinByte 47 (segs ++ [[]]) from
    (joinByte_slash_tail segs hne).symm]
  exact goClean_normal_join_slash segs hne h

theorem goDir_last (xs : List (List Nat)) (lastSeg : List Nat) (hne : xs ≠ [])
    (h : ∀ p ∈ xs, NormalSeg p) (hl : 47 ∉ lastSeg) :
    goDir (joinByte 47 (xs ++ [lastSeg])) = joinByte 47 xs := by
  unfold goDir
  rw [joinByte_append 47 xs [lastSeg] hne (by simp),
    show joinByte 47 [lastSeg] = lastSeg from rfl,
    goSplitPath_last (joinByte 47 xs) lastSeg hl]
  show goClean (joinByte 47 xs ++ [47]) = joinByte 47 xs
  rw [show joinByte 47 xs ++ [47] = joinByte 47 (xs ++ [[]]) from
    (joinByte_slash_tail xs hne).symm]
  exact goClean_normal_join_slash xs hne h

theorem goDir_no_slash (s : List Nat) (h : 47 ∉ s) : goDir s = [46] := by
  unfold goDir
  rw [goSplitPath_no_slash s h]
  rfl

theorem okSeg_of_nil_cons (l : List (List Nat)) (h : ∀ p ∈ l, NormalSeg p) :
    ∀ p ∈ ([] :: l : List (List Nat)), OkSeg p := by
  intro p hp
  rcases List.mem_cons.mp hp with rfl | hp2
  · exact Or.inl (Or.inl rfl)
  · exact Or.inr (h p hp2)

theorem filter_nil_cons (l : List (List Nat)) (h : ∀ p ∈ l, NormalSeg p) :
    (([] :: l : List (List Nat))).filter keepSeg = l := by
  rw [List.filter_cons, show keepSeg ([] : List Nat) = false from rfl,
    filter_keep_normal l h]
  simp

/-- C10: the final deletion of `DeleteStreamSync` targets
`"/" + path.Dir(input.Path) + "/"`.  For a stream path written with a
trailing slash this URI-normalises to the stream directory itself; for a
path without the trailing slash it normalises to the stream's parent
directory (and differs from the stream directory's URI); for a top-level
stream without a slash it is the container root `/<container>/`. -/
theorem c10_delete_stream_final_path (c s : List Nat)
    (segs xs : List (List Nat)) (lastSeg : List Nat)
    (hc : NormalSeg c)
    (hsegs : ∀ p ∈ segs, NormalSeg p) (hsegs_ne : segs ≠ [])
    (hxs : ∀ p ∈ xs, NormalSeg p) (hxs_ne : xs ≠ []) (hlast : NormalSeg lastSeg)
    (hs : 47 ∉ s) :
    buildURIPath c (deleteStreamFinalPath (joinByte 47 segs ++ [47])) =
        buildURIPath c (joinByte 47 segs ++ [47]) ∧
      buildURIPath c (deleteStreamFinalPath (joinByte 47 (xs ++ [lastSeg]))) =
        buildURIPath c (joinByte 47 xs ++ [47]) ∧
      buildURIPath c (deleteStreamFinalPath (joinByte 47 (xs ++ [lastSeg]))) ≠
        buildURIPath c (joinByte 47 (xs ++ [lastSeg]) ++ [47]) ∧
      buildURIPath c (deleteStreamFinalPath s) = [47] ++ c ++ [47] := by
  have hxslast : ∀ p ∈ xs ++ [lastSeg], NormalSeg p := by
    intro p hp
    rcases List.mem_append.mp hp with hp1 | hp2
    · exact hxs p hp1
    · rw [List.mem_singleton.mp hp2]
      exact hlast
  have hLb : buildURIPath c (deleteStreamFinalPath (joinByte 47 (xs ++ [lastSeg]))) =
      (47 :: joinByte 47 (c :: xs)) ++ [47] := by
    rw [deleteStreamFinalPath, goDir_last xs lastSeg hxs_ne hxs hlast.2.2.2,
      show ([47] ++ joinByte 47 xs ++ [47] : List Nat) =
        joinByte 47 ([] :: xs) ++ [47] from by
          rw [joinByte_cons 47 [] xs hxs_ne]
          rfl,
      buildURIPath_of_parts c ([] :: xs) hc (okSeg_of_nil_cons xs hxs) (by simp),
      filter_nil_cons xs hxs]
  refine ⟨?_, ?_, ?_, ?_⟩
  · rw [deleteStreamFinalPath, goDir_trailing segs hsegs_ne hsegs,
      show ([47] ++ joinByte 47 segs ++ [47] : List Nat) =
        joinByte 47 ([] :: segs) ++ [47] from by
          rw [joinByte_cons 47 [] segs hsegs_ne]
          rfl,
      buildURIPath_of_parts c ([] :: segs) hc (okSeg_of_nil_cons segs hsegs) (by simp),
      filter_nil_cons segs hsegs,
      buildURIPath_of_parts c segs hc (fun p hp => Or.inr (hsegs p hp)) hsegs_ne,
      filter_keep_normal segs hsegs]
  · rw [hLb,
      buildURIPath_of_parts c xs hc (fun p hp => Or.inr (hxs p hp)) hxs_ne,
      filter_keep_normal xs hxs]
  · rw [hLb,
      buildURIPath_of_parts c (xs ++ [lastSeg]) hc
        (fun p hp => Or.inr (hxslast p hp)) (by simp),
      filter_keep_normal (xs ++ [lastSeg]) hxslast]
    intro heq
    have h1 : (47 :: joinByte 47 (c :: xs) : List Nat) =
        47 :: joinByte 47 (c :: (xs ++ [lastSeg])) := by
      have := List.append_cancel_right heq
      exact this
    have h2 : joinByte 47 (c :: xs) = joinByte 47 (c :: (xs ++ [lastSeg])) := by
      injection h1 with hhead htail
    have h3 : joinByte 47 (c :: (xs ++ [lastSeg])) =
        joinByte 47 (c :: xs) ++ 47 :: lastSeg := by
      rw [show (c :: (xs ++ [lastSeg]) : List (List Nat)) = (c :: xs) ++ [lastSeg] from rfl,
        joinByte_append 47 (c :: xs) [lastSeg] (by simp) (by simp)]
      rfl
    rw [h3] at h2
    have := congrArg List.length h2
    simp at this
  · rw [deleteStreamFinalPath, goDir_no_slash s hs,
      show ([47] ++ [46] ++ [47] : List Nat) = joinByte 47 [[], [46]] ++ [47] from rfl,
      buildURIPath_of_parts c [[], [46]] hc
        (by
          intro p hp
          rcases List.mem_cons.mp hp with rfl | hp2
          · exact Or.inl (Or.inl rfl)
          · rw [List.mem_singleton.mp hp2]
            exact Or.inl (Or.inr rfl))
        (by simp)]
    rfl

instance instDecNormalSeg (p : List Nat) : Decidable (NormalSeg p) :=
  inferInstanceAs (Decidable (p ≠ [] ∧ p ≠ [46] ∧ p ≠ [46, 46] ∧ 47 ∉ p))

theorem c10_delete_stream_final_path_witness :
    buildURIPath (bytes ("cont"))
        (deleteStreamFinalPath (joinByte 47 [bytes ("a"), bytes ("b")] ++ [47])) =
        buildURIPath (bytes ("cont")) (joinByte 47 [bytes ("a"), bytes ("b")] ++ [47]) ∧
      buildURIPath (bytes ("cont"))
        (deleteStreamFinalPath (joinByte 47 ([bytes ("a")] ++ [bytes ("b")]))) =
        buildURIPath (bytes ("cont")) (joinByte 47 [bytes ("a")] ++ [47]) ∧
      buildURIPath (bytes ("cont"))
        (deleteStreamFinalPath (joinByte 47 ([bytes ("a")] ++ [bytes ("b")]))) ≠
        buildURIPath (bytes ("cont")) (joinByte 47 ([bytes ("a")] ++ [bytes ("b")]) ++ [47]) ∧
      buildURIPath (bytes ("cont")) (deleteStreamFinalPath (bytes ("top"))) =
        [47] ++ bytes ("cont") ++ [47] :=
  c10_delete_stream_final_path (bytes ("cont")) (bytes ("top"))
    [bytes ("a"), bytes ("b")] [bytes ("a")] (bytes ("b"))
    (by decide) (by decide) (by decide) (by decide) (by decide) (by decide) (by decide)

/-! ## `GetItems` response parsing (C7) -/

/-- `strconv.ParseBool` with the error ignored (as in
`getItemsParseJSONResponse`): an unrecognised string yields `false`. -/
def goParseBool (s : List Nat) : Bool :=
  s = bytes ("1") || s = bytes ("t") || s = bytes ("T") || s = bytes ("TRUE") ||
    s = bytes ("true") || s = bytes ("True")

/-- The ad-hoc structure `json.Unmarshal` fills from a JSON `GetItems`
response body. -/
structure GetItemsJSONBody where
  items : List (List (List Nat × List (List Nat × EncVal)))
  nextMarker : List Nat
  lastItemIncluded : List Nat
  scattered : List Nat

/-- `GetItemsOutput`. -/
structure GetItemsOutputM (M : FloatModel) where
  last : Bool
  nextMarker : List Nat
  scattered : Bool
  items : List (List (List Nat × AttrValue M))

def decodeJSONItems (M : FloatModel) :
    List (List (List Nat × List (List Nat × EncVal))) →
      Except Unit (List (List (List Nat × AttrValue M)))
  | [] => .ok []
  | ti :: rest =>
    match decodeTypedAttributes M ti with
    | .error e => .error e
    | .ok item =>
      match decodeJSONItems M rest with
      | .error e => .error e
      | .ok tail => .ok (item :: tail)

/-- `getItemsParseJSONResponse`: decode each typed item with
`decodeTypedAttributes` and copy the pagination fields.  No `__name`
attribute is synthesised on this path. -/
def getItemsParseJSONResponse (M : FloatModel) (body : GetItemsJSONBody) :
    Except Unit (GetItemsOutputM M) :=
  match decodeJSONItems M body.items with
  | .error e => .error e
  | .ok items =>
    .ok { last := goParseBool body.lastItemIncluded
          nextMarker := body.nextMarker
          scattered := goParseBool body.scattered
          items := items }

/-- A decoded capnp `ExtAttrValue`, by its union tag. -/
inductive CapnpVal (M : FloatModel) where
  | qword (i : Int)
  | uqword (n : Nat)
  | blob (b : List Nat)
  | str (s : List Nat)
  | dfloat (f : M.F)
  | boolean (b : Bool)
  | time (sec nsec : Int)
  | notExists
  | unknown

/-- One item of the capnp metadata payload: its name (key) and its
`(KeyMapIndex, ValueMapIndex)` attribute pairs. -/
structure CapnpItem where
  name : List Nat
  attrs : List (Nat × Nat)

/-- The decoded capnp framing as read by `getItemsParseCAPNPResponse`:
the attribute-name key table and item list from the final metadata
section, the value arrays of the in-between data sections (sections
`1 .. n-2`; section 0 is never read), and the metadata section's own
value array, which is indexed last. -/
structure CapnpPayload (M : FloatModel) where
  keys : List (List Nat)
  dataSections : List (List (CapnpVal M))
  metaValues : List (CapnpVal M)
  items : List CapnpItem

/-- The `int(value.Uqword())` cast: `uint64` to signed 64-bit. -/
def toI64 (n : Nat) : Int :=
  if n % 2 ^ 64 < 2 ^ 63 then (n % 2 ^ 64 : Int) else (n % 2 ^ 64 : Int) - 2 ^ 64

/-- `attributeValuesSection` construction: each section is stored with the
cumulative length of the value arrays up to and including itself. -/
def accumSections (M : FloatModel) :
    Nat → List (List (CapnpVal M)) → List (Nat × List (CapnpVal M))
  | _, [] => []
  | acc, d :: rest => (acc + d.length, d) :: accumSections M (acc + d.length) rest

def buildValueSections (M : FloatModel) (p : CapnpPayload M) :
    List (Nat × List (CapnpVal M)) :=
  accumSections M 0 (p.dataSections ++ [p.metaValues])

/-- The `for i := 1; i < len(values); i++` search of `getSectionAndIndex`. -/
def gsiLoop (M : FloatModel) (values : List (Nat × List (CapnpVal M))) (idx : Nat) :
    Nat → Nat → Nat × Nat
  | 0, _ => (0, idx)
  | fuel + 1, i =>
    if i < values.length then
      if idx < ((values.get? i).map Prod.fst).getD 0 then
        (i, idx - ((values.get? (i - 1)).map Prod.fst).getD 0)
      else gsiLoop M values idx fuel (i + 1)
    else (0, idx)

/-- `getSectionAndIndex`: resolve a global value index into a section and
an index within it by linear search over the cumulative lengths. -/
def getSectionAndIndex (M : FloatModel) (values : List (Nat × List (CapnpVal M)))
    (idx : Nat) : Nat × Nat :=
  if values.length = 1 then (0, idx)
  else if idx < ((values.get? 0).map Prod.fst).getD 0 then (0, idx)
  else gsiLoop M values idx values.length 1

/-- The `switch value.Which()` of `decodeCapnpAttributes`: `notExists` is
skipped, an unexpected tag is an error, and the rest decode to native
attribute values (`time` through `time.Unix` normalisation). -/
def interpCapnpVal (M : FloatModel) : CapnpVal M → Except Unit (Option (AttrValue M))
  | .qword i => .ok (some (.int i))
  | .uqword n => .ok (some (.int (toI64 n)))
  | .blob b => .ok (some (.blob b))
  | .str s => .ok (some (.str s))
  | .dfloat f => .ok (some (.flt f))
  | .boolean b => .ok (some (.boolean b))
  | .time sec nsec => .ok (some (.ts (timeUnixPair sec nsec).1 (timeUnixPair sec nsec).2))
  | .notExists => .ok none
  | .unknown => .error ()

/-- `decodeCapnpAttributes`: walk the item's `(key index, value index)`
pairs, resolve each value across the sections, and build the attribute
map.  An out-of-range key index (a Go panic) and an out-of-range value
index are decode failures. -/
def decodeCapnpAttributes (M : FloatModel) (values : List (Nat × List (CapnpVal M)))
    (attributeNames : List (List Nat)) :
    List (Nat × Nat) → List (List Nat × AttrValue M) →
      Except Unit (List (List Nat × AttrValue M))
  | [], acc => .ok acc
  | (kIdx, vIdx) :: rest, acc =>
    match attributeNames.get? kIdx with
    | none => .error ()
    | some attributeName =>
      match (values.get? (getSectionAndIndex M values vIdx).1).bind
          (fun sec => sec.2.get? (getSectionAndIndex M values vIdx).2) with
      | none => .error ()
      | some value =>
        match interpCapnpVal M value with
        | .error e => .error e
        | .ok none => decodeCapnpAttributes M values attributeNames rest acc
        | .ok (some v) =>
          decodeCapnpAttributes M values attributeNames rest (mapSet attributeName v acc)

/-- The item loop of `getItemsParseCAPNPResponse`: decode each item's
attributes and, when a wildcard was requested, store the item's name under
the synthetic `"__name"` attribute. -/
def parseCapnpItems (M : FloatModel) (values : List (Nat × List (CapnpVal M)))
    (attributeNames : List (List Nat)) (withWildcard : Bool) :
    List CapnpItem → Except Unit (List (List (List Nat × AttrValue M)))
  | [] => .ok []
  | it :: rest =>
    match decodeCapnpAttributes M values attributeNames it.attrs [] with
    | .error e => .error e
    | .ok ditem =>
      match parseCapnpItems M values attributeNames withWildcard rest with
      | .error e => .error e
      | .ok tail =>
        .ok ((if withWildcard then mapSet (bytes ("__name")) (.str it.name) ditem
              else ditem) :: tail)

/-- `getItemsParseCAPNPResponse`: pagination from the `X-v3io-cookie` and
`X-v3io-scattered` headers, items from the item loop. -/
def getItemsParseCAPNPResponse (M : FloatModel) (payload : CapnpPayload M)
    (withWildcard : Bool) (cookie scattered : List Nat) :
    Except Unit (GetItemsOutputM M) :=
  match parseCapnpItems M (buildValueSections M payload) payload.keys withWildcard
      payload.items with
  | .error e => .error e
  | .ok items =>
    .ok { last := cookie = []
          nextMarker := cookie
          scattered := scattered = bytes ("TRUE")
          items := items }

/-- A `GetItems` response body, as far as the two decoders are concerned. -/
inductive RespBody (M : FloatModel) where
  | json (b : GetItemsJSONBody)
  | capnp (p : CapnpPayload M)

/-- `parseGetItemsResponse`: any `Content-Type` other than
`application/octet-capnp` selects the JSON decoder; otherwise the capnp
decoder runs, with the wildcard flag computed from the requested attribute
names (`*` or `**`).  A body of the wrong framing is an unmarshal error. -/
def parseGetItemsResponse (M : FloatModel) (attributeNames : List (List Nat))
    (contentType : List Nat) (body : RespBody M) (cookie scattered : List Nat) :
    Except Unit (GetItemsOutputM M) :=
  if contentType ≠ bytes ("application/octet-capnp") then
    match body with
    | .json b => getItemsParseJSONResponse M b
    | .capnp _ => .error ()
  else
    match body with
    | .capnp p =>
      getItemsParseCAPNPResponse M p
        (attributeNames.any fun a => a = bytes ("*") || a = bytes ("**")) cookie scattered
    | .json _ => .error ()

/-- C7 counterexample: a JSON-typed `GetItems` response parsed with
wildcard attribute names yields items with no synthetic `"__name"`
attribute — only the capnp path adds it. -/
theorem c7_json_no_name_counterexample :
    parseGetItemsResponse unitFloatModel [bytes ("*")] (bytes ("application/json"))
        (.json { items := [[(bytes ("age"), [(bytes ("N"), .vstr (bytes ("30")))])]]
                 nextMarker := []
                 lastItemIncluded := bytes ("TRUE")
                 scattered := [] })
        [] [] =
      .ok { last := true
            nextMarker := []
            scattered := false
            items := [[(bytes ("age"), .int 30)]] } ∧
      lookupB (bytes ("__name"))
        [(bytes ("age"), (AttrValue.int 30 : AttrValue unitFloatModel))] = none := by
  refine ⟨rfl, rfl⟩

theorem parseCapnpItems_name (M : FloatModel) (values : List (Nat × List (CapnpVal M)))
    (attributeNames : List (List Nat)) :
    ∀ (its : List CapnpItem) (res : List (List (List Nat × AttrValue M))),
      parseCapnpItems M values attributeNames true its = .ok res →
      List.Forall₂
        (fun (oi : List (List Nat × AttrValue M)) (pit : CapnpItem) =>
          lookupB (bytes ("__name")) oi = some (.str pit.name)) res its := by
  intro its
  induction its with
  | nil =>
    intro res h
    injection h with h2
    rw [← h2]
    exact List.Forall₂.nil
  | cons it rest ih =>
    intro res h
    have hstep : parseCapnpItems M values attributeNames true (it :: rest) =
        match decodeCapnpAttributes M values attributeNames it.attrs [] with
        | .error e => .error e
        | .ok ditem =>
          match parseCapnpItems M values attributeNames true rest with
          | .error e => .error e
          | .ok tail => .ok (mapSet (bytes ("__name")) (.str it.name) ditem :: tail) := rfl
    rw [hstep] at h
    rcases hd : decodeCapnpAttributes M values attributeNames it.attrs [] with e | ditem
    · rw [hd] at h
      exact absurd h (by simp)
    · rw [hd] at h
      rcases ht : parseCapnpItems M values attributeNames true rest with e | tail
      · rw [ht] at h
        exact absurd h (by simp)
      · rw [ht] at h
        replace h : Except.ok (mapSet (bytes ("__name")) (AttrValue.str it.name) ditem ::
            tail) = Except.ok res := h
        injection h with h2
        rw [← h2]
        exact List.Forall₂.cons (lookupB_mapSet (bytes ("__name")) (.str it.name) ditem)
          (ih tail ht)

/-- C7 amended: when the requested attribute names contain `*` or `**` and
the response is decoded from the binary framed (capnp) envelope, every
item of the parsed output carries the synthetic `"__name"` attribute
holding that item's key; the JSON decoding path never synthesises
`"__name"` (it returns exactly the decoded attributes). -/
theorem c7_capnp_wildcard_name_amended (M : FloatModel) (payload : CapnpPayload M)
    (cookie scattered : List Nat) (attributeNames : List (List Nat))
    (out : GetItemsOutputM M)
    (hw : (attributeNames.any fun a => a = bytes ("*") || a = bytes ("**")) = true)
    (hok : parseGetItemsResponse M attributeNames (bytes ("application/octet-capnp"))
        (.capnp payload) cookie scattered = .ok out) :
    List.Forall₂
      (fun (oi : List (List Nat × AttrValue M)) (pit : CapnpItem) =>
        lookupB (bytes ("__name")) oi = some (.str pit.name)) out.items payload.items := by
  unfold parseGetItemsResponse at hok
  rw [if_neg (by decide :
      ¬(bytes ("application/octet-capnp") ≠ bytes ("application/octet-capnp")))] at hok
  rw [hw] at hok
  unfold getItemsParseCAPNPResponse at hok
  replace hok :
      (match parseCapnpItems M (buildValueSections M payload) payload.keys true
          payload.items with
        | Except.error e => (Except.error e : Except Unit (GetItemsOutputM M))
        | Except.ok items =>
          Except.ok { last := decide (cookie = []), nextMarker := cookie,
                      scattered := decide (scattered = bytes ("TRUE")), items := items }) =
        Except.ok out := hok
  rcases hp : parseCapnpItems M (buildValueSections M payload) payload.keys true
      payload.items with e | its
  · rw [hp] at hok
    exact absurd hok (by simp)
  · rw [hp] at hok
    replace hok :
        (Except.ok
            { last := decide (cookie = [])
              nextMarker := cookie
              scattered := decide (scattered = bytes ("TRUE"))
              items := its } :
          Except Unit (GetItemsOutputM M)) = Except.ok out := hok
    injection hok with h2
    rw [← h2]
    exact parseCapnpItems_name M (buildValueSections M payload) payload.keys
      payload.items its hp

def c7WitnessPayload : CapnpPayload unitFloatModel where
  keys := [bytes ("age")]
  dataSections := []
  metaValues := [.qword 30]
  items := [{ name := bytes ("it1"), attrs := [(0, 0)] }]

theorem c7_capnp_wildcard_name_amended_witness :
    List.Forall₂
      (fun (oi : List (List Nat × AttrValue unitFloatModel)) (pit : CapnpItem) =>
        lookupB (bytes ("__name")) oi = some (.str pit.name))
      (GetItemsOutputM.items
        { last := true
          nextMarker := []
          scattered := false
          items := [[(bytes ("age"), .int 30),
                     (bytes ("__name"), .str (bytes ("it1")))]] })
      c7WitnessPayload.items :=
  c7_capnp_wildcard_name_amended unitFloatModel c7WitnessPayload [] [] [bytes ("**")]
    { last := true
      nextMarker := []
      scattered := false
      items := [[(bytes ("age"), .int 30), (bytes ("__name"), .str (bytes ("it1")))]] }
    (by decide) (by rfl)
